import Mathlib

/-!
# TMath: the Matrix type of `src/matrix.cpp`

A shallow embedding of `TMath::Matrix` and a verification of its specification.

Modelling conventions.

* `DOUBLE` is modelled by the rationals: cells are taken in exact arithmetic, rounding is
  not modelled.
* A `std::vector` is a `List`; copying a vector copies its value.
* A thrown constant is an `Except.error`.  Indexing a `std::vector` out of range is undefined
  behaviour in C++; the embedding makes it the explicit outcome `Err.OUT_OF_RANGE`, so that
  a result `Except.ok` always stands for a run without an out-of-range access.
* Sizes and indices (`size_t`) are natural numbers.  The `int` parameters of the sized
  constructor are integers.  The conversion of a `size_t` row index to the `int` parameter
  of `operator[]` is the identity below `2^31` and is not modelled.
* The header `tmath.hpp` is not part of the sources: the scalar helper `TMath::equal` is
  modelled from the specification, the constant `EQUAL_EPSILON` is a parameter, and the two
  thrown constants are taken to be distinct.
* A counting loop `for (size_t i = 0; i < n; i++)` is `forLoop body 0 n`.
* In `to_string` the expressions `w-1` and `h-1` are unsigned arithmetic modulo `2^64`
  (`size_pred`); the text written by `stream << x` for a number `x` is a parameter `fmt`.
* The code of `Vector` is not part of the sources (only its test is): the operations of
  `Vector` that the claims need are modelled from the specification.
-/

namespace TMath

/-- The scalar type of the library. -/
abbrev DOUBLE : Type := ℚ

/-- The outcomes other than a normal return: the two constants thrown by `matrix.cpp`,
and an out-of-range access to a `std::vector`. -/
inductive Err where
  | EMPTY_MATRIX_ERROR
  | DIMENSION_ERROR
  | OUT_OF_RANGE
  deriving DecidableEq, Repr

/-- Equality of outcomes is decidable. -/
instance instDecidableEqExcept {ε α : Type} [DecidableEq ε] [DecidableEq α] :
    DecidableEq (Except ε α)
  | .ok a, .ok b => if h : a = b then isTrue (by rw [h]) else isFalse (fun h' => h (by cases h'; rfl))
  | .error a, .error b =>
    if h : a = b then isTrue (by rw [h]) else isFalse (fun h' => h (by cases h'; rfl))
  | .ok _, .error _ => isFalse (fun h => by cases h)
  | .error _, .ok _ => isFalse (fun h => by cases h)

/-- Modelled from the spec: the scalar helper `TMath::equal(a, b, eps)`, declared in the
missing header `tmath.hpp`; "returns true iff `abs(a - b) < eps`". -/
def equal (a b eps : DOUBLE) : Bool :=
  decide (|a - b| < eps)

/-- The loop `for (size_t i = start; i < start + count; i++) body(i)`, threading the state
and stopping at the first failure. -/
def forLoop {σ : Type} (body : Nat → σ → Except Err σ) : Nat → Nat → σ → Except Err σ
  | _, 0, s => .ok s
  | i, count + 1, s =>
    match body i s with
    | .ok s' => forLoop body (i + 1) count s'
    | .error e => .error e

/-- Reading `v[i]` on a `std::vector`. -/
def vecGet {α : Type} (v : List α) (i : Nat) : Except Err α :=
  match v[i]? with
  | some x => .ok x
  | none => .error Err.OUT_OF_RANGE

/-- Writing `v[i] = x` on a `std::vector`. -/
def vecSet {α : Type} (v : List α) (i : Nat) (x : α) : Except Err (List α) :=
  if i < v.length then .ok (v.set i x) else .error Err.OUT_OF_RANGE

/-- The class `TMath::Matrix`: its only data member is `elements`, the rows. -/
structure Matrix where
  elements : List (List DOUBLE)
  deriving DecidableEq, Repr

namespace Matrix

/-- `Matrix::height()`: `elements.size()`. -/
def height (self : Matrix) : Nat :=
  self.elements.length

/-- `Matrix::width()`: `elements[0].size()`. -/
def width (self : Matrix) : Except Err Nat :=
  match vecGet self.elements 0 with
  | .ok row => .ok row.length
  | .error e => .error e

/-- Reading the cell `elements[i][j]`. -/
def cell (self : Matrix) (i j : Nat) : Except Err DOUBLE :=
  match vecGet self.elements i with
  | .ok row => vecGet row j
  | .error e => .error e

/-- Writing the cell `m[i][j] = x` through `operator[]`, which returns a reference to row `i`. -/
def setCell (self : Matrix) (i j : Nat) (x : DOUBLE) : Except Err Matrix :=
  match vecGet self.elements i with
  | .ok row =>
    match vecSet row j x with
    | .ok row' => .ok ⟨self.elements.set i row'⟩
    | .error e => .error e
  | .error e => .error e

/-- The statement `elements[index++] = std::vector<DOUBLE>(row);` of the list constructor,
on the pair of `elements` and `index`. -/
def pushRow (st : List (List DOUBLE) × Nat) (row : List DOUBLE) :
    Except Err (List (List DOUBLE) × Nat) :=
  match vecSet st.1 st.2 row with
  | .ok elements => .ok (elements, st.2 + 1)
  | .error e => .error e

/-- The list constructor `Matrix(std::initializer_list<std::initializer_list<DOUBLE>>)`.
The rows are copied in order into `height` preallocated rows; `common` is the size of
`elements[index-1]`, where `index` has reached `height`; a row of another size throws. -/
def ofList (list : List (List DOUBLE)) : Except Err Matrix :=
  let height := list.length
  if height < 1 then .error Err.EMPTY_MATRIX_ERROR
  else
    match list.foldlM pushRow (List.replicate height [], 0) with
    | .error e => .error e
    | .ok (elements, index) =>
      match vecGet elements (index - 1) with
      | .error e => .error e
      | .ok last =>
        let common := last.length
        if elements.any (fun row => row.length != common) then .error Err.DIMENSION_ERROR
        else .ok ⟨elements⟩

/-- The statement `elements[index] = std::vector<DOUBLE>(width);` of the sized constructor:
a row of `width` zeros. -/
def zeroRow (width : Nat) (index : Nat) (elements : List (List DOUBLE)) :
    Except Err (List (List DOUBLE)) :=
  vecSet elements index (List.replicate width (0 : DOUBLE))

/-- The sized constructor `Matrix(const int& width, const int& height)`: `height` empty rows
are allocated, then the loop runs `index` from `0` up to `width` (not `height`) and assigns
a zero row of length `width` to `elements[index]`. -/
def sized (width height : Int) : Except Err Matrix :=
  if width < 1 ∨ height < 1 then .error Err.EMPTY_MATRIX_ERROR
  else
    match forLoop (zeroRow width.toNat) 0 width.toNat (List.replicate height.toNat []) with
    | .ok elements => .ok ⟨elements⟩
    | .error e => .error e

/-- The statement `elements[index] = std::vector<DOUBLE>(m.elements[index]);` of the copy
constructor. -/
def copyRow (m : Matrix) (index : Nat) (elements : List (List DOUBLE)) :
    Except Err (List (List DOUBLE)) :=
  match vecGet m.elements index with
  | .ok row => vecSet elements index row
  | .error e => .error e

/-- The copy constructor `Matrix(const Matrix& m)`: `m.elements.size()` empty rows are
allocated and row `index` of `m` is copied into row `index`, for every `index < height`. -/
def copy (m : Matrix) : Except Err Matrix :=
  let height := m.elements.length
  match forLoop (copyRow m) 0 height (List.replicate m.elements.length []) with
  | .ok elements => .ok ⟨elements⟩
  | .error e => .error e

/-- `Matrix::validate(const Matrix& m)`: the pair `(w, h)` of `*this`, or `DIMENSION_ERROR`
when `m` has another width or another height. -/
def validate (self m : Matrix) : Except Err (Nat × Nat) :=
  match self.width with
  | .error e => .error e
  | .ok w =>
    let h := self.height
    match m.width with
    | .error e => .error e
    | .ok mw =>
      if mw ≠ w ∨ m.height ≠ h then .error Err.DIMENSION_ERROR
      else .ok (w, h)

/-- The inner loop of `Matrix::equal` on row `i`, from column `j` for `count` columns:
`.ok false` stands for the `return false` taken at the first cell pair that is not equal
under `eps`, `.ok true` for the loop running to its end. -/
def equalCols (self m : Matrix) (eps : DOUBLE) (i : Nat) : Nat → Nat → Except Err Bool
  | _, 0 => .ok true
  | j, count + 1 =>
    match self.cell i j with
    | .error e => .error e
    | .ok x =>
      match m.cell i j with
      | .error e => .error e
      | .ok y =>
        if !TMath.equal x y eps then .ok false
        else equalCols self m eps i (j + 1) count

/-- The outer loop of `Matrix::equal`, from row `i` for `count` rows, over `w` columns. -/
def equalRows (self m : Matrix) (eps : DOUBLE) (w : Nat) : Nat → Nat → Except Err Bool
  | _, 0 => .ok true
  | i, count + 1 =>
    match equalCols self m eps i 0 w with
    | .error e => .error e
    | .ok false => .ok false
    | .ok true => equalRows self m eps w (i + 1) count

/-- `Matrix::equal(const Matrix& m, const DOUBLE& eps)`. -/
def equal (self m : Matrix) (eps : DOUBLE) : Except Err Bool :=
  match self.validate m with
  | .error e => .error e
  | .ok dimensions => equalRows self m eps dimensions.1 0 dimensions.2

/-- `Matrix::operator==`: `equal(m, EQUAL_EPSILON)`.  The constant `EQUAL_EPSILON` is declared
in the missing header and is a parameter here. -/
def operator_eq (EQUAL_EPSILON : DOUBLE) (self m : Matrix) : Except Err Bool :=
  self.equal m EQUAL_EPSILON

/-- `Matrix::operator!=`: `!equal(m, EQUAL_EPSILON)`. -/
def operator_ne (EQUAL_EPSILON : DOUBLE) (self m : Matrix) : Except Err Bool :=
  match self.equal m EQUAL_EPSILON with
  | .ok b => .ok (!b)
  | .error e => .error e

/-- The objects in scope in the body of `operator+` and `operator-`: `*this`, the argument
`a`, and the local `result`. -/
structure Frame where
  self : Matrix
  a : Matrix
  result : Matrix
  deriving DecidableEq, Repr

/-- The statement `result[i][j] += elements[i][j];` of `operator+`. -/
def addCell (i j : Nat) (f : Frame) : Except Err Frame :=
  match f.self.cell i j with
  | .error e => .error e
  | .ok x =>
    match f.result.cell i j with
    | .error e => .error e
    | .ok r =>
      match f.result.setCell i j (r + x) with
      | .error e => .error e
      | .ok result => .ok { f with result := result }

/-- The statement `result[i][j] -= a.elements[i][j];` of `operator-`. -/
def subCell (i j : Nat) (f : Frame) : Except Err Frame :=
  match f.a.cell i j with
  | .error e => .error e
  | .ok x =>
    match f.result.cell i j with
    | .error e => .error e
    | .ok r =>
      match f.result.setCell i j (r - x) with
      | .error e => .error e
      | .ok result => .ok { f with result := result }

/-- The inner loop `for (size_t j = 0; j < w; j++)` of `operator+` on row `i`. -/
def addRow (w : Nat) (i : Nat) (f : Frame) : Except Err Frame :=
  forLoop (addCell i) 0 w f

/-- The inner loop `for (size_t j = 0; j < w; j++)` of `operator-` on row `i`. -/
def subRow (w : Nat) (i : Nat) (f : Frame) : Except Err Frame :=
  forLoop (subCell i) 0 w f

/-- The body of `Matrix::operator+(const Matrix& a)`, returning the final frame: `result`
starts as a copy of the argument `a` and the cells of `*this` are added to it. -/
def addFrame (self a : Matrix) : Except Err Frame :=
  match self.width with
  | .error e => .error e
  | .ok w =>
    let h := self.height
    match a.width with
    | .error e => .error e
    | .ok aw =>
      if aw ≠ w ∨ a.height ≠ h then .error Err.DIMENSION_ERROR
      else
        match copy a with
        | .error e => .error e
        | .ok result =>
          forLoop (addRow w) 0 h ⟨self, a, result⟩

/-- The body of `Matrix::operator-(const Matrix& a)`, returning the final frame: `result`
starts as a copy of `*this` and the cells of the argument `a` are subtracted from it. -/
def subFrame (self a : Matrix) : Except Err Frame :=
  match self.width with
  | .error e => .error e
  | .ok w =>
    let h := self.height
    match a.width with
    | .error e => .error e
    | .ok aw =>
      if aw ≠ w ∨ a.height ≠ h then .error Err.DIMENSION_ERROR
      else
        match copy self with
        | .error e => .error e
        | .ok result =>
          forLoop (subRow w) 0 h ⟨self, a, result⟩

/-- `Matrix::operator+`: the value returned, `result`. -/
def operator_plus (self a : Matrix) : Except Err Matrix :=
  match addFrame self a with
  | .ok f => .ok f.result
  | .error e => .error e

/-- `Matrix::operator-`: the value returned, `result`. -/
def operator_minus (self a : Matrix) : Except Err Matrix :=
  match subFrame self a with
  | .ok f => .ok f.result
  | .error e => .error e

/-- Two matrix objects alive together: a matrix `m` and the matrix `c` built from it by the
copy constructor. -/
structure CopyPair where
  m : Matrix
  c : Matrix
  deriving DecidableEq, Repr

/-- The declaration `Matrix c(m);`. -/
def CopyPair.construct (m : Matrix) : Except Err CopyPair :=
  match copy m with
  | .ok c => .ok ⟨m, c⟩
  | .error e => .error e

/-- The write `c[i][j] = x;` to a cell of the copy. -/
def CopyPair.write (p : CopyPair) (i j : Nat) (x : DOUBLE) : Except Err CopyPair :=
  match p.c.setCell i j x with
  | .ok c => .ok { p with c := c }
  | .error e => .error e

/-- All rows of the matrix have the same length. -/
def Uniform (m : Matrix) : Prop :=
  ∀ r ∈ m.elements, ∀ r' ∈ m.elements, r.length = r'.length

instance (m : Matrix) : Decidable m.Uniform := by
  unfold Uniform; infer_instance

/-- The number of values of `size_t`. -/
def SIZE_MODULUS : Nat := 2 ^ 64

/-- The expression `n - 1` on a `size_t`: unsigned arithmetic, `0 - 1` wraps around. -/
def size_pred (n : Nat) : Nat :=
  (SIZE_MODULUS - 1 + n) % SIZE_MODULUS

/-- The statement `stream << elements[i][j] << ", ";` of `to_string`.  The number formatting
of the stream is the parameter `fmt`. -/
def writeCell (fmt : DOUBLE → String) (self : Matrix) (i j : Nat) (stream : String) :
    Except Err String :=
  match self.cell i j with
  | .ok x => .ok (stream ++ fmt x ++ ", ")
  | .error e => .error e

/-- The body of the outer loop of `to_string` on row `i`: the cells before column `w-1`, each
followed by `", "`, then the cell of column `w-1`, then `"], ["` when `i < h-1`. -/
def writeRow (fmt : DOUBLE → String) (self : Matrix) (w h : Nat) (i : Nat) (stream : String) :
    Except Err String :=
  match forLoop (writeCell fmt self i) 0 (size_pred w) stream with
  | .error e => .error e
  | .ok stream' =>
    match self.cell i (size_pred w) with
    | .error e => .error e
    | .ok x =>
      if i < size_pred h then .ok (stream' ++ fmt x ++ "], [")
      else .ok (stream' ++ fmt x)

/-- `Matrix::to_string()`, with the number formatting of the stream as the parameter `fmt`. -/
def to_string (fmt : DOUBLE → String) (self : Matrix) : Except Err String :=
  match self.width with
  | .error e => .error e
  | .ok w =>
    let h := self.height
    match forLoop (writeRow fmt self w h) 0 h "\x7b[" with
    | .ok stream => .ok (stream ++ "]\x7d")
    | .error e => .error e

/-- The texts `xs` in order, separated by `sep`. -/
def joinWith (sep : String) : List String → String
  | [] => ""
  | [x] => x
  | x :: y :: rest => x ++ sep ++ joinWith sep (y :: rest)

/-- The text the specification gives for a matrix: `{[`, the rows in order separated by
`], [`, then `]}`, a row being its cells in order, formatted by `fmt` and separated
by `, `. -/
def rendered (fmt : DOUBLE → String) (self : Matrix) : String :=
  "\x7b[" ++ joinWith "], [" (self.elements.map (fun row => joinWith ", " (row.map fmt)))
    ++ "]\x7d"

end Matrix

/-- Modelled from the spec: the error kinds of `Vector`, whose code (`vector.cpp`,
`tmath.hpp`) is not part of the sources; the spec names an EmptyVectorError, a DimensionError
and a DivisionError. -/
inductive VectorError where
  | EmptyVectorError
  | DimensionError
  | DivisionError
  deriving DecidableEq, Repr

/-- Modelled from the spec: the type `Vector`, missing from the sources; "an ordered,
fixed-length sequence of Scalars". -/
structure Vector where
  elements : List DOUBLE
  deriving DecidableEq, Repr

namespace Vector

/-- Modelled from the spec: the sized constructor `Vector(N)`, missing from the sources;
"given integer N, produces a Vector of length N with every component 0.  Fails with an
EmptyVectorError-equivalent if N < 1". -/
def sized (n : Int) : Except VectorError Vector :=
  if n < 1 then .error VectorError.EmptyVectorError
  else .ok ⟨List.replicate n.toNat 0⟩

/-- Modelled from the spec: `Vector::sum`, missing from the sources; "returns the sum of all
components". -/
def sum (v : Vector) : DOUBLE :=
  v.elements.sum

/-- Modelled from the spec: `Vector::norm`, missing from the sources; "returns a new Vector
scaled so all components are divided by the sum of components.  Fails with a
DivisionError-equivalent when the sum of components is zero". -/
def norm (v : Vector) : Except VectorError Vector :=
  if v.sum = 0 then .error VectorError.DivisionError
  else .ok ⟨v.elements.map (fun x => x / v.sum)⟩

/-- Modelled from the spec: `Vector::cross`, missing from the sources; "defined only for
dimension exactly 3; returns the standard 3D cross product vector.  Fails with a
DimensionError-equivalent if either operand's dimension ≠ 3". -/
def cross (a b : Vector) : Except VectorError Vector :=
  match a.elements, b.elements with
  | [a0, a1, a2], [b0, b1, b2] =>
    .ok ⟨[a1 * b2 - a2 * b1, a2 * b0 - a0 * b2, a0 * b1 - a1 * b0]⟩
  | _, _ => .error VectorError.DimensionError

/-- Modelled from the spec: the unary negation of `Vector`, missing from the sources;
"returns a new Vector with every component negated". -/
def neg (v : Vector) : Vector :=
  ⟨v.elements.map (fun x => -x)⟩

/-- Modelled from the spec: `Vector::equal`, missing from the sources; "validates
dimensions, then returns true iff every component pair is approx_equal under eps". -/
def equal (a b : Vector) (eps : DOUBLE) : Except VectorError Bool :=
  if a.elements.length ≠ b.elements.length then .error VectorError.DimensionError
  else .ok ((List.zipWith (fun x y => TMath.equal x y eps) a.elements b.elements).all id)

/-- Modelled from the spec: `==` on `Vector`, missing from the sources; "`==` and `!=`
delegate to this with the default epsilon", the parameter `EQUAL_EPSILON`. -/
def operator_eq (EQUAL_EPSILON : DOUBLE) (a b : Vector) : Except VectorError Bool :=
  a.equal b EQUAL_EPSILON

end Vector

theorem forLoop_inv {σ : Type} (body : Nat → σ → Except Err σ) (I : Nat → σ → Prop) :
    ∀ (count start : Nat) (s : σ), I start s →
      (∀ i t, start ≤ i → i < start + count → I i t → ∃ t', body i t = .ok t' ∧ I (i + 1) t') →
      ∃ s', forLoop body start count s = .ok s' ∧ I (start + count) s' := by
  intro count
  induction count with
  | zero => intro start s h0 _; exact ⟨s, rfl, by simpa using h0⟩
  | succ n ih =>
    intro start s h0 hstep
    obtain ⟨t, ht, hI⟩ := hstep start s (Nat.le_refl _) (by omega) h0
    obtain ⟨s', hs', hI'⟩ := ih (start + 1) t hI
      (fun i u h1 h2 hu => hstep i u (by omega) (by omega) hu)
    refine ⟨s', ?_, ?_⟩
    · simp [forLoop, ht, hs']
    · have : start + (n + 1) = start + 1 + n := by omega
      rw [this]; exact hI'

theorem forLoop_error {σ : Type} (body : Nat → σ → Except Err σ) (P : Err → Prop)
    (hbody : ∀ i t e, body i t = .error e → P e) :
    ∀ (count start : Nat) (s : σ) (e : Err), forLoop body start count s = .error e → P e := by
  intro count
  induction count with
  | zero => intro start s e h; simp [forLoop] at h
  | succ n ih =>
    intro start s e h
    unfold forLoop at h
    cases hb : body start s with
    | ok t => rw [hb] at h; exact ih _ _ _ h
    | error e' =>
      rw [hb] at h
      simp at h
      subst h
      exact hbody _ _ _ hb

theorem vecGet_of_lt {α : Type} (v : List α) (i : Nat) (h : i < v.length) :
    vecGet v i = .ok (v.get ⟨i, h⟩) := by
  simp [vecGet, List.getElem?_eq_getElem h]

theorem vecGet_of_le {α : Type} (v : List α) (i : Nat) (h : v.length ≤ i) :
    vecGet v i = .error Err.OUT_OF_RANGE := by
  simp [vecGet, List.getElem?_eq_none h]

theorem vecGet_eq_ok {α : Type} (v : List α) (i : Nat) (x : α) :
    vecGet v i = .ok x ↔ v[i]? = some x := by
  unfold vecGet
  cases h : v[i]? <;> simp

theorem vecGet_error {α : Type} (v : List α) (i : Nat) (e : Err) (h : vecGet v i = .error e) :
    e = Err.OUT_OF_RANGE := by
  unfold vecGet at h
  cases h' : v[i]? <;> simp [h'] at h
  exact h.symm

theorem vecSet_error {α : Type} (v : List α) (i : Nat) (x : α) (e : Err)
    (h : vecSet v i x = .error e) : e = Err.OUT_OF_RANGE := by
  unfold vecSet at h
  split at h <;> simp at h
  exact h.symm

/-- The copy constructor returns its argument, value for value, for every matrix. -/
theorem Matrix.copy_eq (m : Matrix) : Matrix.copy m = .ok m := by
  obtain ⟨els, hels, hlen, hI⟩ := forLoop_inv (Matrix.copyRow m)
    (fun i els => els.length = m.elements.length ∧ ∀ k, k < i → els[k]? = m.elements[k]?)
    m.elements.length 0 (List.replicate m.elements.length [])
    ⟨by simp, by intro k hk; omega⟩
    (by
      intro i t _ hi ⟨hlen, hpre⟩
      have hi' : i < m.elements.length := by omega
      refine ⟨t.set i (m.elements.get ⟨i, hi'⟩), ?_, by simpa using hlen, ?_⟩
      · simp [Matrix.copyRow, vecGet_of_lt _ _ hi', vecSet, hlen, hi']
      · intro k hk
        by_cases hki : k = i
        · subst hki
          simp [List.getElem?_set, hlen, hi', List.getElem?_eq_getElem hi']
        · rw [List.getElem?_set_ne (Ne.symm hki)]
          exact hpre k (by omega))
  have hEq : els = m.elements := by
    apply List.ext_getElem?
    intro k
    by_cases hk : k < m.elements.length
    · exact hI k (by omega)
    · rw [List.getElem?_eq_none (by omega), List.getElem?_eq_none (by omega)]
  unfold Matrix.copy
  simp only [hels, hEq]

/-- The copying loop of the list constructor: with `pre` already written and as many
preallocated rows left as there are rows to copy, it ends with all rows written in order. -/
theorem foldlM_pushRow (list : List (List DOUBLE)) :
    ∀ (pre rest : List (List DOUBLE)), rest.length = list.length →
      list.foldlM Matrix.pushRow (pre ++ rest, pre.length) =
        .ok (pre ++ list, pre.length + list.length) := by
  induction list with
  | nil =>
    intro pre rest h
    have : rest = [] := List.length_eq_zero.mp (by simpa using h)
    subst this
    rfl
  | cons row tl ih =>
    intro pre rest h
    cases rest with
    | nil => simp at h
    | cons r rest' =>
      have hlen : rest'.length = tl.length := by simpa using h
      have hstep : Matrix.pushRow (pre ++ r :: rest', pre.length) row =
          .ok ((pre ++ [row]) ++ rest', (pre ++ [row]).length) := by
        simp [Matrix.pushRow, vecSet]
      rw [List.foldlM_cons, hstep]
      have := ih (pre ++ [row]) rest' hlen
      simp only [bind, Except.bind]
      rw [this]
      simp [Nat.add_assoc, Nat.add_comm 1]

/-- What the list constructor computes: the empty list is rejected, a list with a row whose
length is not that of the last row is rejected, and every other list is stored as it is. -/
theorem Matrix.ofList_eq (list : List (List DOUBLE)) :
    Matrix.ofList list =
      if list.length < 1 then .error Err.EMPTY_MATRIX_ERROR
      else if list.any (fun row => row.length != (list.getLastD []).length) then
        .error Err.DIMENSION_ERROR
      else .ok ⟨list⟩ := by
  unfold Matrix.ofList
  by_cases h : list.length < 1
  · simp [h]
  · have hfold := foldlM_pushRow list [] (List.replicate list.length []) (by simp)
    simp only [List.nil_append, List.length_nil, Nat.zero_add] at hfold
    have hpos : list.length - 1 < list.length := by omega
    have hne : list ≠ [] := by intro h0; subst h0; simp at h
    have hlast : vecGet list (list.length - 1) = .ok (list.getLastD []) := by
      rw [vecGet_of_lt _ _ hpos]
      congr 1
      rw [List.getLastD_eq_getLast?, List.getLast?_eq_getLast _ hne, List.getLast_eq_getElem]
      simp
    simp only [h, if_false, hfold, hlast]

/-- The zero-filling loop of the sized constructor on `n` preallocated rows: it fills the
first `w` rows when `w ≤ n`. -/
theorem forLoop_zeroRow_of_le (w n : Nat) (h : w ≤ n) :
    forLoop (Matrix.zeroRow w) 0 w (List.replicate n []) =
      .ok (List.replicate w (List.replicate w (0 : DOUBLE)) ++ List.replicate (n - w) []) := by
  obtain ⟨els, hels, hlen, hlo, hhi⟩ := forLoop_inv (Matrix.zeroRow w)
    (fun i els => els.length = n ∧ (∀ k, k < i → els[k]? = some (List.replicate w (0 : DOUBLE)))
      ∧ ∀ k, i ≤ k → k < n → els[k]? = some [])
    w 0 (List.replicate n [])
    ⟨by simp, by intro k hk; omega, by intro k _ hk; simp [List.getElem?_replicate, hk]⟩
    (by
      intro i t _ hi ⟨hlen, hlo, hhi⟩
      have hi' : i < t.length := by omega
      refine ⟨t.set i (List.replicate w 0), by simp [Matrix.zeroRow, vecSet, hi'],
        by simpa using hlen, ?_, ?_⟩
      · intro k hk
        by_cases hki : k = i
        · subst hki; simp [List.getElem?_set, hi']
        · rw [List.getElem?_set_ne (Ne.symm hki)]
          exact hlo k (by omega)
      · intro k hk hkn
        rw [List.getElem?_set_ne (by omega)]
        exact hhi k (by omega) hkn)
  rw [hels]
  congr 1
  apply List.ext_getElem?
  intro k
  by_cases hk : k < w
  · rw [hlo k (by omega), List.getElem?_append_left (by simpa using hk)]
    simp [List.getElem?_replicate, hk]
  · by_cases hkn : k < n
    · rw [hhi k (by omega) hkn, List.getElem?_append_right (by simp; omega)]
      simp [List.getElem?_replicate]
      omega
    · rw [List.getElem?_eq_none (by omega), List.getElem?_eq_none (by simp; omega)]

/-- The zero-filling loop of the sized constructor on `n` preallocated rows: it writes out
of range when `n < w`. -/
theorem forLoop_zeroRow_of_gt (w : Nat) :
    ∀ (count start : Nat) (els : List (List DOUBLE)), els.length < start + count →
      start ≤ els.length →
      forLoop (Matrix.zeroRow w) start count els = .error Err.OUT_OF_RANGE := by
  intro count
  induction count with
  | zero => intro start els h1 h2; omega
  | succ c ih =>
    intro start els h1 h2
    by_cases hs : start < els.length
    · have := ih (start + 1) (els.set start (List.replicate w 0)) (by simp; omega) (by simp; omega)
      simp [forLoop, Matrix.zeroRow, vecSet, hs]
      simpa [Matrix.zeroRow] using this
    · simp [forLoop, Matrix.zeroRow, vecSet, hs]

/-- The sized constructor with `1 ≤ width ≤ height`: `width` zero rows of length `width`,
followed by `height - width` rows left empty. -/
theorem Matrix.sized_of_le (width height : Int) (hw : 1 ≤ width) (hwh : width ≤ height) :
    Matrix.sized width height = .ok ⟨List.replicate width.toNat
      (List.replicate width.toNat (0 : DOUBLE)) ++
        List.replicate (height.toNat - width.toNat) []⟩ := by
  have hg : ¬ (width < 1 ∨ height < 1) := by omega
  unfold Matrix.sized
  rw [if_neg hg, forLoop_zeroRow_of_le width.toNat height.toNat (by omega)]

/-- The sized constructor with `1 ≤ height < width`: the loop writes a row out of range. -/
theorem Matrix.sized_of_gt (width height : Int) (hh : 1 ≤ height) (hwh : height < width) :
    Matrix.sized width height = .error Err.OUT_OF_RANGE := by
  have hg : ¬ (width < 1 ∨ height < 1) := by omega
  unfold Matrix.sized
  rw [if_neg hg, forLoop_zeroRow_of_gt width.toNat width.toNat 0 _ (by simp; omega) (by simp)]

theorem Matrix.cell_of_row (m : Matrix) (i j : Nat) (row : List DOUBLE)
    (hrow : m.elements[i]? = some row) (hj : j < row.length) :
    m.cell i j = .ok (row.getD j 0) := by
  have h1 : vecGet m.elements i = .ok row := (vecGet_eq_ok _ _ _).mpr hrow
  have h2 : vecGet row j = .ok (row.getD j 0) := by
    rw [vecGet_eq_ok]
    simp [List.getElem?_eq_getElem hj]
  simp [Matrix.cell, h1, h2]

theorem Matrix.setCell_of_row (m : Matrix) (i j : Nat) (x : DOUBLE) (row : List DOUBLE)
    (hrow : m.elements[i]? = some row) (hj : j < row.length) :
    m.setCell i j x = .ok ⟨m.elements.set i (row.set j x)⟩ := by
  have h1 : vecGet m.elements i = .ok row := (vecGet_eq_ok _ _ _).mpr hrow
  simp [Matrix.setCell, h1, vecSet, hj]

/-- One run of `result[i][j] += elements[i][j];` with both cells in range. -/
theorem Matrix.addCell_ok (i j : Nat) (f : Matrix.Frame) (rs rr : List DOUBLE)
    (hs : f.self.elements[i]? = some rs) (hr : f.result.elements[i]? = some rr)
    (hjs : j < rs.length) (hjr : j < rr.length) :
    Matrix.addCell i j f =
      .ok ⟨f.self, f.a, ⟨f.result.elements.set i (rr.set j (rr.getD j 0 + rs.getD j 0))⟩⟩ := by
  simp only [Matrix.addCell, Matrix.cell_of_row _ _ _ _ hs hjs, Matrix.cell_of_row _ _ _ _ hr hjr,
    Matrix.setCell_of_row _ _ _ _ _ hr hjr]

/-- One run of `result[i][j] -= a.elements[i][j];` with both cells in range. -/
theorem Matrix.subCell_ok (i j : Nat) (f : Matrix.Frame) (rs rr : List DOUBLE)
    (hs : f.a.elements[i]? = some rs) (hr : f.result.elements[i]? = some rr)
    (hjs : j < rs.length) (hjr : j < rr.length) :
    Matrix.subCell i j f =
      .ok ⟨f.self, f.a, ⟨f.result.elements.set i (rr.set j (rr.getD j 0 - rs.getD j 0))⟩⟩ := by
  simp only [Matrix.subCell, Matrix.cell_of_row _ _ _ _ hs hjs, Matrix.cell_of_row _ _ _ _ hr hjr,
    Matrix.setCell_of_row _ _ _ _ _ hr hjr]

/-- A loop over the columns of row `i` whose statement combines the cell of `result` with the
cell of a fixed row `rs` leaves `result` with row `i` combined cell by cell. -/
theorem cellLoop_ok (op : DOUBLE → DOUBLE → DOUBLE) (step : Nat → Matrix.Frame → Except Err Matrix.Frame)
    (i w : Nat) (self a : Matrix) (R : List (List DOUBLE)) (rs rr : List DOUBLE)
    (hstep : ∀ j (g : Matrix.Frame) row, j < w → g.self = self → g.a = a →
      g.result.elements[i]? = some row → row.length = w →
      step j g = .ok ⟨self, a, ⟨g.result.elements.set i
        (row.set j (op (row.getD j 0) (rs.getD j 0)))⟩⟩)
    (hr : R[i]? = some rr) (hrw : rr.length = w) (hrs : rs.length = w) :
    forLoop step 0 w ⟨self, a, ⟨R⟩⟩ = .ok ⟨self, a, ⟨R.set i (List.zipWith op rr rs)⟩⟩ := by
  have hi : i < R.length := by
    rcases List.getElem?_eq_some.mp hr with ⟨h, _⟩; exact h
  have hset : R.set i rr = R := by
    apply List.ext_getElem?
    intro k
    by_cases hk : i = k
    · subst hk; simp [List.getElem?_set, hi, hr]
    · rw [List.getElem?_set_ne hk]
  obtain ⟨g, hg, row, hgeq, hlen, hI⟩ := forLoop_inv step
    (fun j g => ∃ row, g = ⟨self, a, ⟨R.set i row⟩⟩ ∧ row.length = w ∧
      ∀ k, row[k]? = if k < j then (List.zipWith op rr rs)[k]? else rr[k]?)
    w 0 ⟨self, a, ⟨R⟩⟩
    ⟨rr, by rw [hset], hrw, by intro k; simp⟩
    (by
      rintro j g _ hj ⟨row, rfl, hlen, hI⟩
      have hj' : j < w := by omega
      have hrow : (R.set i row)[i]? = some row := by simp [List.getElem?_set, hi]
      refine ⟨_, hstep j _ row hj' rfl rfl hrow hlen, row.set j (op (row.getD j 0) (rs.getD j 0)),
        by simp [List.set_set], by simpa using hlen, ?_⟩
      intro k
      by_cases hkj : k = j
      · subst hkj
        have h1 : row[k]? = rr[k]? := by simpa using hI k
        have hk1 : k < rr.length := by omega
        have hk2 : k < rs.length := by omega
        simp [List.getElem?_set, hlen, hj', List.getElem?_zipWith, h1,
          List.getElem?_eq_getElem hk1, List.getElem?_eq_getElem hk2]
      · rw [List.getElem?_set_ne (Ne.symm hkj), hI k]
        by_cases h2 : k < j
        · simp [h2, show k < j + 1 by omega]
        · simp [h2, show ¬ k < j + 1 by omega])
  have hrowEq : row = List.zipWith op rr rs := by
    apply List.ext_getElem?
    intro k
    rw [hI k]
    by_cases hk : k < w
    · simp [hk]
    · have : ¬ k < 0 + w := by omega
      simp only [this, if_false]
      rw [List.getElem?_eq_none (by omega), List.getElem?_eq_none (by simp; omega)]
  rw [hg, hgeq, hrowEq]

/-- A loop over the rows whose statement combines row `i` of `result` with row `i` of the
fixed rows `S` leaves `result` combined cell by cell with `S`. -/
theorem rowLoop_ok (op : DOUBLE → DOUBLE → DOUBLE)
    (rowStep : Nat → Matrix.Frame → Except Err Matrix.Frame)
    (self a : Matrix) (R S : List (List DOUBLE)) (w h : Nat)
    (hrow : ∀ i R' rr rs, i < h → R'[i]? = some rr → S[i]? = some rs → rr.length = w →
      rs.length = w →
      rowStep i ⟨self, a, ⟨R'⟩⟩ = .ok ⟨self, a, ⟨R'.set i (List.zipWith op rr rs)⟩⟩)
    (hR : R.length = h) (hS : S.length = h)
    (hRw : ∀ r ∈ R, r.length = w) (hSw : ∀ r ∈ S, r.length = w) :
    forLoop rowStep 0 h ⟨self, a, ⟨R⟩⟩ =
      .ok ⟨self, a, ⟨List.zipWith (List.zipWith op) R S⟩⟩ := by
  obtain ⟨g, hg, R', hgeq, hlen, hI⟩ := forLoop_inv rowStep
    (fun i g => ∃ R', g = ⟨self, a, ⟨R'⟩⟩ ∧ R'.length = h ∧
      ∀ k, R'[k]? = if k < i then (List.zipWith (List.zipWith op) R S)[k]? else R[k]?)
    h 0 ⟨self, a, ⟨R⟩⟩
    ⟨R, rfl, hR, by intro k; simp⟩
    (by
      rintro i g _ hi ⟨R', rfl, hlen, hI⟩
      have hi' : i < h := by omega
      have hiR : i < R.length := by omega
      have hiS : i < S.length := by omega
      have h1 : R'[i]? = some (R.get ⟨i, hiR⟩) := by
        rw [hI i]; simp [List.getElem?_eq_getElem hiR]
      have h2 : S[i]? = some (S.get ⟨i, hiS⟩) := by simp [List.getElem?_eq_getElem hiS]
      refine ⟨_, hrow i R' _ _ hi' h1 h2 (hRw _ (List.get_mem _ _ _)) (hSw _ (List.get_mem _ _ _)),
        _, rfl, by simpa using hlen, ?_⟩
      intro k
      by_cases hki : k = i
      · subst hki
        simp [List.getElem?_set, hlen, hi', List.getElem?_zipWith,
          List.getElem?_eq_getElem hiR, List.getElem?_eq_getElem hiS]
      · rw [List.getElem?_set_ne (Ne.symm hki), hI k]
        by_cases h2 : k < i
        · simp [h2, show k < i + 1 by omega]
        · simp [h2, show ¬ k < i + 1 by omega])
  have hREq : R' = List.zipWith (List.zipWith op) R S := by
    apply List.ext_getElem?
    intro k
    rw [hI k]
    by_cases hk : k < h
    · simp [hk]
    · have : ¬ k < 0 + h := by omega
      simp only [this, if_false]
      rw [List.getElem?_eq_none (by omega), List.getElem?_eq_none (by simp; omega)]
  rw [hg, hgeq, hREq]

/-- The call `operator+` with operands of one shape: the final frame holds the operands as
they were and, in `result`, the rows of `a` with the rows of `*this` added cell by cell. -/
theorem Matrix.addFrame_eq (self a : Matrix) (w : Nat)
    (hsw : self.width = .ok w) (haw : a.width = .ok w) (hh : a.height = self.height)
    (hsu : ∀ r ∈ self.elements, r.length = w) (hau : ∀ r ∈ a.elements, r.length = w) :
    Matrix.addFrame self a =
      .ok ⟨self, a, ⟨List.zipWith (List.zipWith (· + ·)) a.elements self.elements⟩⟩ := by
  unfold Matrix.addFrame
  simp only [hsw, haw, hh, Matrix.copy_eq, ne_eq, not_true_eq_false, or_self, if_false]
  apply rowLoop_ok (· + ·) (Matrix.addRow w) self a a.elements self.elements w self.height
    _ hh rfl hau hsu
  intro i R' rr rs _ hR' hS hrr hrs
  unfold Matrix.addRow
  apply cellLoop_ok (· + ·) (Matrix.addCell i) i w self a R' rs rr _ hR' hrr hrs
  intro j g row hj hgs hga hrow hlen
  have hs : g.self.elements[i]? = some rs := by rw [hgs]; exact hS
  rw [Matrix.addCell_ok i j g rs row hs hrow (by omega) (by omega), hgs, hga]

/-- The call `operator-` with operands of one shape: the final frame holds the operands as
they were and, in `result`, the rows of `*this` with the rows of `a` subtracted cell by cell. -/
theorem Matrix.subFrame_eq (self a : Matrix) (w : Nat)
    (hsw : self.width = .ok w) (haw : a.width = .ok w) (hh : a.height = self.height)
    (hsu : ∀ r ∈ self.elements, r.length = w) (hau : ∀ r ∈ a.elements, r.length = w) :
    Matrix.subFrame self a =
      .ok ⟨self, a, ⟨List.zipWith (List.zipWith (· - ·)) self.elements a.elements⟩⟩ := by
  unfold Matrix.subFrame
  simp only [hsw, haw, hh, Matrix.copy_eq, ne_eq, not_true_eq_false, or_self, if_false]
  apply rowLoop_ok (· - ·) (Matrix.subRow w) self a self.elements a.elements w self.height
    _ rfl hh hsu hau
  intro i R' rr rs _ hR' hS hrr hrs
  unfold Matrix.subRow
  apply cellLoop_ok (· - ·) (Matrix.subCell i) i w self a R' rs rr _ hR' hrr hrs
  intro j g row hj hgs hga hrow hlen
  have hs : g.a.elements[i]? = some rs := by rw [hga]; exact hS
  rw [Matrix.subCell_ok i j g rs row hs hrow (by omega) (by omega), hgs, hga]

/-- The guard of `operator+`: operands with a width each, of different width or height. -/
theorem Matrix.addFrame_mismatch (self a : Matrix) (w aw : Nat)
    (hsw : self.width = .ok w) (haw : a.width = .ok aw)
    (hne : aw ≠ w ∨ a.height ≠ self.height) :
    Matrix.addFrame self a = .error Err.DIMENSION_ERROR := by
  unfold Matrix.addFrame
  simp only [hsw, haw, hne, if_true]

/-- The guard of `operator-`: operands with a width each, of different width or height. -/
theorem Matrix.subFrame_mismatch (self a : Matrix) (w aw : Nat)
    (hsw : self.width = .ok w) (haw : a.width = .ok aw)
    (hne : aw ≠ w ∨ a.height ≠ self.height) :
    Matrix.subFrame self a = .error Err.DIMENSION_ERROR := by
  unfold Matrix.subFrame
  simp only [hsw, haw, hne, if_true]

/-- The matrix has width `w` exactly when it has a row 0, of length `w`. -/
theorem Matrix.width_eq_ok (m : Matrix) (w : Nat) :
    m.width = .ok w ↔ ∃ row, m.elements[0]? = some row ∧ row.length = w := by
  unfold Matrix.width vecGet
  cases h : m.elements[0]? <;> simp

/-- A matrix with at least one row, all rows of length `w`, has width `w`. -/
theorem Matrix.width_of_rows (m : Matrix) (w : Nat) (hpos : 1 ≤ m.height)
    (hu : ∀ r ∈ m.elements, r.length = w) : m.width = .ok w := by
  rw [Matrix.width_eq_ok]
  have h0 : 0 < m.elements.length := hpos
  exact ⟨m.elements.get ⟨0, h0⟩, by simp [List.getElem?_eq_getElem h0], hu _ (List.get_mem _ _ _)⟩

/-- A matrix with a width has at least one row. -/
theorem Matrix.height_pos_of_width (m : Matrix) (w : Nat) (h : m.width = .ok w) :
    1 ≤ m.height := by
  rcases (Matrix.width_eq_ok m w).mp h with ⟨row, hrow, _⟩
  rcases List.getElem?_eq_some.mp hrow with ⟨h0, _⟩
  exact h0

/-- Reading a cell inside a matrix whose rows all have length `w`. -/
theorem Matrix.cell_in_range (m : Matrix) (w i j : Nat) (hu : ∀ r ∈ m.elements, r.length = w)
    (hi : i < m.height) (hj : j < w) :
    ∃ x, m.cell i j = .ok x ∧ (m.elements.getD i []).getD j 0 = x := by
  have hi' : i < m.elements.length := hi
  have hrow : m.elements[i]? = some (m.elements.get ⟨i, hi'⟩) := by
    simp [List.getElem?_eq_getElem hi']
  have hlen := hu _ (List.get_mem m.elements i hi')
  refine ⟨_, Matrix.cell_of_row m i j _ hrow (by omega), ?_⟩
  simp [List.getElem?_eq_getElem hi']

/-- The helper `TMath::equal` holds exactly when the distance is below `eps`. -/
theorem equal_eq_true (x y eps : DOUBLE) : equal x y eps = true ↔ |x - y| < eps := by
  simp [equal]

/-- The inner loop of `Matrix::equal` on rows that cover the columns it visits: it returns,
and returns true exactly when every visited cell pair is equal under `eps`. -/
theorem Matrix.equalCols_spec (self m : Matrix) (eps : DOUBLE) (i : Nat) (ra rb : List DOUBLE)
    (ha : self.elements[i]? = some ra) (hb : m.elements[i]? = some rb) :
    ∀ (count j : Nat), j + count ≤ ra.length → j + count ≤ rb.length →
      ∃ r, Matrix.equalCols self m eps i j count = .ok r ∧
        (r = true ↔ ∀ k, j ≤ k → k < j + count →
          TMath.equal (ra.getD k 0) (rb.getD k 0) eps = true) := by
  intro count
  induction count with
  | zero =>
    intro j _ _
    exact ⟨true, rfl, by simp; intro k h1 h2; omega⟩
  | succ c ih =>
    intro j h1 h2
    have hca := Matrix.cell_of_row self i j ra ha (by omega)
    have hcb := Matrix.cell_of_row m i j rb hb (by omega)
    by_cases he : TMath.equal (ra.getD j 0) (rb.getD j 0) eps = true
    · obtain ⟨r, hr, hiff⟩ := ih (j + 1) (by omega) (by omega)
      refine ⟨r, ?_, ?_⟩
      · simp only [Matrix.equalCols, hca, hcb, he, Bool.not_true]
        simpa using hr
      · rw [hiff]
        constructor
        · intro h k hk1 hk2
          by_cases hkj : k = j
          · subst hkj; exact he
          · exact h k (by omega) (by omega)
        · intro h k hk1 hk2
          exact h k (by omega) (by omega)
    · refine ⟨false, ?_, ?_⟩
      · have he' : TMath.equal (ra.getD j 0) (rb.getD j 0) eps = false := by
          cases hv : TMath.equal (ra.getD j 0) (rb.getD j 0) eps
          · rfl
          · exact absurd hv he
        simp only [Matrix.equalCols, hca, hcb, he']
        rfl
      · simp only [Bool.false_eq_true, false_iff]
        intro h
        exact he (h j (Nat.le_refl _) (by omega))

/-- The outer loop of `Matrix::equal` on matrices whose rows all have length `w`: it returns,
and returns true exactly when every visited cell pair is equal under `eps`. -/
theorem Matrix.equalRows_spec (self m : Matrix) (eps : DOUBLE) (w : Nat)
    (hsu : ∀ r ∈ self.elements, r.length = w) (hmu : ∀ r ∈ m.elements, r.length = w) :
    ∀ (count i : Nat), i + count ≤ self.height → i + count ≤ m.height →
      ∃ r, Matrix.equalRows self m eps w i count = .ok r ∧
        (r = true ↔ ∀ k, i ≤ k → k < i + count → ∀ l, l < w →
          TMath.equal ((self.elements.getD k []).getD l 0) ((m.elements.getD k []).getD l 0) eps
            = true) := by
  intro count
  induction count with
  | zero =>
    intro i _ _
    exact ⟨true, rfl, by simp; intro k h1 h2; omega⟩
  | succ c ih =>
    intro i h1 h2
    have hi1 : i < self.elements.length := by unfold Matrix.height at h1; omega
    have hi2 : i < m.elements.length := by unfold Matrix.height at h2; omega
    have ha : self.elements[i]? = some (self.elements.get ⟨i, hi1⟩) := by
      simp [List.getElem?_eq_getElem hi1]
    have hb : m.elements[i]? = some (m.elements.get ⟨i, hi2⟩) := by
      simp [List.getElem?_eq_getElem hi2]
    have hla := hsu _ (List.get_mem self.elements i hi1)
    have hlb := hmu _ (List.get_mem m.elements i hi2)
    obtain ⟨rc, hrc, hciff⟩ := Matrix.equalCols_spec self m eps i _ _ ha hb w 0
      (by omega) (by omega)
    have hda : self.elements.getD i [] = self.elements.get ⟨i, hi1⟩ := by
      simp [List.getElem?_eq_getElem hi1]
    have hdb : m.elements.getD i [] = m.elements.get ⟨i, hi2⟩ := by
      simp [List.getElem?_eq_getElem hi2]
    cases rc with
    | true =>
      obtain ⟨r, hr, hiff⟩ := ih (i + 1) (by omega) (by omega)
      refine ⟨r, ?_, ?_⟩
      · simp only [Matrix.equalRows, hrc]
        exact hr
      · rw [hiff]
        constructor
        · intro h k hk1 hk2 l hl
          by_cases hki : k = i
          · subst hki
            rw [hda, hdb]
            exact hciff.mp rfl l (Nat.zero_le _) (by omega)
          · exact h k (by omega) (by omega) l hl
        · intro h k hk1 hk2 l hl
          exact h k (by omega) (by omega) l hl
    | false =>
      refine ⟨false, ?_, ?_⟩
      · simp only [Matrix.equalRows, hrc]
      · simp only [Bool.false_eq_true, false_iff]
        intro h
        have : (false = true) := hciff.mpr (by
          intro l _ hl
          have := h i (Nat.le_refl _) (by omega) l (by omega)
          rwa [hda, hdb] at this)
        exact Bool.false_ne_true this

/-- The check `validate` on matrices with a width each. -/
theorem Matrix.validate_eq (self m : Matrix) (w mw : Nat)
    (hsw : self.width = .ok w) (hmw : m.width = .ok mw) :
    Matrix.validate self m =
      if mw ≠ w ∨ m.height ≠ self.height then .error Err.DIMENSION_ERROR
      else .ok (w, self.height) := by
  unfold Matrix.validate
  simp only [hsw, hmw]

/-- The method `equal` on two matrices of width `w` and of one height, all rows of length `w`:
it returns, and returns true exactly when every cell pair is equal under `eps`. -/
theorem Matrix.equal_spec (self m : Matrix) (eps : DOUBLE) (w : Nat)
    (hsw : self.width = .ok w) (hmw : m.width = .ok w) (hh : m.height = self.height)
    (hsu : ∀ r ∈ self.elements, r.length = w) (hmu : ∀ r ∈ m.elements, r.length = w) :
    ∃ r, self.equal m eps = .ok r ∧
      (r = true ↔ ∀ k, k < self.height → ∀ l, l < w →
        TMath.equal ((self.elements.getD k []).getD l 0) ((m.elements.getD k []).getD l 0) eps
          = true) := by
  obtain ⟨r, hr, hiff⟩ := Matrix.equalRows_spec self m eps w hsu hmu self.height 0
    (by omega) (by omega)
  refine ⟨r, ?_, ?_⟩
  · unfold Matrix.equal
    rw [Matrix.validate_eq self m w w hsw hmw]
    simp only [hh, ne_eq, not_true_eq_false, or_self, if_false]
    exact hr
  · rw [hiff]
    constructor
    · intro h k hk l hl; exact h k (Nat.zero_le _) (by omega) l hl
    · intro h k _ hk l hl; exact h k (by omega) l hl

/-- The method `equal` on matrices with a width each, of different width or height. -/
theorem Matrix.equal_mismatch (self m : Matrix) (eps : DOUBLE) (w mw : Nat)
    (hsw : self.width = .ok w) (hmw : m.width = .ok mw)
    (hne : mw ≠ w ∨ m.height ≠ self.height) :
    self.equal m eps = .error Err.DIMENSION_ERROR := by
  unfold Matrix.equal
  rw [Matrix.validate_eq self m w mw hsw hmw]
  simp only [hne, if_true]

/-- A matrix returned by the list constructor holds the given rows, at least one, all of one
length. -/
theorem Matrix.ofList_ok (list : List (List DOUBLE)) (m : Matrix)
    (h : Matrix.ofList list = .ok m) :
    m.elements = list ∧ 1 ≤ list.length ∧
      ∀ r ∈ list, r.length = (list.getLastD []).length := by
  rw [Matrix.ofList_eq] at h
  split at h
  · simp at h
  · split at h
    · simp at h
    · rename_i h1 h2
      simp only [Except.ok.injEq] at h
      subst h
      refine ⟨rfl, by omega, ?_⟩
      intro r hr
      simp only [List.any_eq_true, not_exists, not_and] at h2
      simpa using h2 r hr

/-- A list of at least one row, all of length `w`, is accepted by the list constructor and
stored as it is. -/
theorem Matrix.ofList_of_rows (list : List (List DOUBLE)) (w : Nat) (hne : list ≠ [])
    (hu : ∀ r ∈ list, r.length = w) : Matrix.ofList list = .ok ⟨list⟩ := by
  rw [Matrix.ofList_eq]
  have hpos : ¬ list.length < 1 := by
    cases list with
    | nil => exact absurd rfl hne
    | cons x xs => simp
  have hlast : (list.getLastD []).length = w := by
    rw [List.getLastD_eq_getLast?, List.getLast?_eq_getLast _ hne]
    exact hu _ (List.getLast_mem hne)
  rw [if_neg hpos, if_neg]
  simp only [List.any_eq_true, not_exists, not_and]
  intro r hr
  rw [hlast, hu r hr]
  simp

/-- The rows combined cell by cell: shape and cells of the matrix of the combined rows. -/
theorem Matrix.zipWith_spec (op : DOUBLE → DOUBLE → DOUBLE) (A B : Matrix) (w : Nat)
    (hA : ∀ r ∈ A.elements, r.length = w) (hB : ∀ r ∈ B.elements, r.length = w)
    (hh : A.height = B.height) :
    (⟨List.zipWith (List.zipWith op) A.elements B.elements⟩ : Matrix).height = A.height ∧
    (∀ r ∈ List.zipWith (List.zipWith op) A.elements B.elements, r.length = w) ∧
    ∀ i j, i < A.height → j < w → ∃ x y, A.cell i j = .ok x ∧ B.cell i j = .ok y ∧
      (⟨List.zipWith (List.zipWith op) A.elements B.elements⟩ : Matrix).cell i j
        = .ok (op x y) := by
  unfold Matrix.height at hh
  refine ⟨by simp [Matrix.height, hh], ?_, ?_⟩
  · intro r hr
    obtain ⟨k, hk, hkr⟩ := List.getElem_of_mem hr
    have hk' : k < A.elements.length ∧ k < B.elements.length := by simpa using hk
    rw [List.getElem_zipWith] at hkr
    subst hkr
    simp [hA _ (List.getElem_mem hk'.1), hB _ (List.getElem_mem hk'.2)]
  · intro i j hi hj
    have hiA : i < A.elements.length := hi
    have hiB : i < B.elements.length := by omega
    obtain ⟨ra, hrA⟩ : ∃ ra, A.elements[i]? = some ra := ⟨_, List.getElem?_eq_getElem hiA⟩
    obtain ⟨rb, hrB⟩ : ∃ rb, B.elements[i]? = some rb := ⟨_, List.getElem?_eq_getElem hiB⟩
    have hlA : ra.length = w := hA _ (List.getElem?_mem hrA)
    have hlB : rb.length = w := hB _ (List.getElem?_mem hrB)
    have hjA : j < ra.length := by omega
    have hjB : j < rb.length := by omega
    refine ⟨_, _, Matrix.cell_of_row A i j _ hrA hjA, Matrix.cell_of_row B i j _ hrB hjB, ?_⟩
    have hrow : (⟨List.zipWith (List.zipWith op) A.elements B.elements⟩ : Matrix).elements[i]?
        = some (List.zipWith op ra rb) := by
      simp [List.getElem?_zipWith, hrA, hrB]
    rw [Matrix.cell_of_row _ i j _ hrow (by simp; omega)]
    congr 1
    simp [List.getElem?_zipWith, List.getElem?_eq_getElem hjA, List.getElem?_eq_getElem hjB]

/-- C1 (the code departs from the claim): `Matrix(1, 2)` returns the rows `[[0], []]`; the loop
of the sized constructor runs up to `width`, so the second of the two rows is left empty and
the result is not the zero grid of two rows of length one. -/
theorem Matrix.sized_one_two_second_row_empty :
    Matrix.sized 1 2 = .ok ⟨[[0], []]⟩ ∧
      ¬ ∃ m, Matrix.sized 1 2 = .ok m ∧ m.height = 2 ∧
        ∀ row ∈ m.elements, row = List.replicate 1 (0 : DOUBLE) := by
  have h : Matrix.sized 1 2 = .ok ⟨[[0], []]⟩ := by decide
  refine ⟨h, ?_⟩
  rintro ⟨m, hm, _, hrows⟩
  rw [h] at hm
  simp only [Except.ok.injEq] at hm
  subst hm
  have := hrows [] (by simp)
  simp at this

/-- C2: the list constructor raises `EMPTY_MATRIX_ERROR` exactly on the list without rows;
on a list with a first row it raises `DIMENSION_ERROR` exactly when some row has another
length than the first row, and otherwise it returns a matrix. -/
theorem Matrix.ofList_errors (list : List (List DOUBLE)) :
    (Matrix.ofList list = .error Err.EMPTY_MATRIX_ERROR ↔ list.length = 0) ∧
    ∀ first, list.head? = some first →
      (Matrix.ofList list = .error Err.DIMENSION_ERROR ↔
        ∃ row ∈ list, row.length ≠ first.length) ∧
      ((∀ row ∈ list, row.length = first.length) → ∃ m, Matrix.ofList list = .ok m) := by
  constructor
  · rw [Matrix.ofList_eq]
    constructor
    · intro h
      split at h
      · omega
      · split at h <;> simp at h
    · intro h
      simp [h]
  · intro first hfirst
    have hne : list ≠ [] := by
      intro h0; subst h0; simp at hfirst
    have hmem : first ∈ list := List.mem_of_mem_head? hfirst
    have hlastmem : list.getLastD [] ∈ list := by
      rw [List.getLastD_eq_getLast?, List.getLast?_eq_getLast _ hne]
      exact List.getLast_mem hne
    have hpos : ¬ list.length < 1 := by
      cases list with
      | nil => exact absurd rfl hne
      | cons x xs => simp
    constructor
    · rw [Matrix.ofList_eq, if_neg hpos]
      constructor
      · intro h
        split at h
        · rename_i hany
          simp only [List.any_eq_true, bne_iff_ne, ne_eq] at hany
          obtain ⟨row, hrow, hlen⟩ := hany
          by_cases hf : row.length = first.length
          · exact ⟨list.getLastD [], hlastmem, by rw [← hf]; exact fun h' => hlen h'.symm⟩
          · exact ⟨row, hrow, hf⟩
        · simp at h
      · rintro ⟨row, hrow, hlen⟩
        rw [if_pos]
        simp only [List.any_eq_true, bne_iff_ne, ne_eq]
        by_cases hf : first.length = (list.getLastD []).length
        · exact ⟨row, hrow, by rw [← hf]; exact hlen⟩
        · exact ⟨first, hmem, hf⟩
    · intro hall
      exact ⟨⟨list⟩, Matrix.ofList_of_rows list first.length hne hall⟩

/-- C2 at the rows `{{1,2},{3,4,5}}` of the specification: `DIMENSION_ERROR`. -/
theorem Matrix.ofList_errors_witness :
    Matrix.ofList [[1, 2], [3, 4, 5]] = .error Err.DIMENSION_ERROR :=
  (((Matrix.ofList_errors [[1, 2], [3, 4, 5]]).2 [1, 2] rfl).1).mpr
    ⟨[3, 4, 5], by simp, by decide⟩

/-- C7: the sized constructor raises `EMPTY_MATRIX_ERROR`, and so returns no matrix, exactly
when `width < 1` or `height < 1`. -/
theorem Matrix.sized_empty_error_iff (width height : Int) :
    Matrix.sized width height = .error Err.EMPTY_MATRIX_ERROR ↔ (width < 1 ∨ height < 1) := by
  constructor
  · intro h
    by_contra hg
    unfold Matrix.sized at h
    rw [if_neg hg] at h
    cases hl : forLoop (Matrix.zeroRow width.toNat) 0 width.toNat
        (List.replicate height.toNat []) with
    | ok els => rw [hl] at h; simp at h
    | error e =>
      rw [hl] at h
      have he : e = Err.OUT_OF_RANGE :=
        forLoop_error (Matrix.zeroRow width.toNat) (fun e => e = Err.OUT_OF_RANGE)
          (fun i t e h => vecSet_error _ _ _ _ h) _ _ _ _ hl
      subst he
      simp at h
  · intro hg
    unfold Matrix.sized
    rw [if_pos hg]

/-- C8: on a list of at least one row, all rows of length `w`, the list constructor returns a
matrix of height the number of rows and of width `w`, whose cell `(i, j)` is value `j` of
row `i` of the list. -/
theorem Matrix.ofList_shape_and_cells (list : List (List DOUBLE)) (w : Nat)
    (hne : list ≠ []) (hrows : ∀ row ∈ list, row.length = w) :
    ∃ m, Matrix.ofList list = .ok m ∧ m.height = list.length ∧ m.width = .ok w ∧
      ∀ i j, i < list.length → j < w →
        ∃ row x, list[i]? = some row ∧ row[j]? = some x ∧ m.cell i j = .ok x := by
  have hpos : 1 ≤ list.length := by
    cases list with
    | nil => exact absurd rfl hne
    | cons x xs => simp
  refine ⟨⟨list⟩, Matrix.ofList_of_rows list w hne hrows, rfl,
    Matrix.width_of_rows ⟨list⟩ w hpos hrows, ?_⟩
  intro i j hi hj
  obtain ⟨row, hrow⟩ : ∃ row, list[i]? = some row := ⟨_, List.getElem?_eq_getElem hi⟩
  have hlen : row.length = w := hrows _ (List.getElem?_mem hrow)
  have hj' : j < row.length := by omega
  refine ⟨row, row.getD j 0, hrow, ?_, Matrix.cell_of_row ⟨list⟩ i j row hrow hj'⟩
  simp [List.getElem?_eq_getElem hj']

/-- C8 at the rows `{{1,2},{3,4}}`. -/
theorem Matrix.ofList_shape_and_cells_witness :
    ∃ m, Matrix.ofList [[1, 2], [3, 4]] = .ok m ∧ m.height = 2 ∧ m.width = .ok 2 ∧
      ∀ i j, i < 2 → j < 2 →
        ∃ row x, ([[1, 2], [3, 4]] : List (List DOUBLE))[i]? = some row ∧ row[j]? = some x ∧
          m.cell i j = .ok x :=
  Matrix.ofList_shape_and_cells [[1, 2], [3, 4]] 2 (by simp) (by simp)

/-- A matrix returned by the list constructor has a width, the length of all its rows, and
at least one row. -/
theorem Matrix.ofList_width (list : List (List DOUBLE)) (m : Matrix)
    (h : Matrix.ofList list = .ok m) :
    ∃ w, m.width = .ok w ∧ (∀ r ∈ m.elements, r.length = w) ∧ 1 ≤ m.height := by
  obtain ⟨hel, hpos, hrows⟩ := Matrix.ofList_ok list m h
  have hrows' : ∀ r ∈ m.elements, r.length = (list.getLastD []).length := by
    rw [hel]; exact hrows
  have hpos' : 1 ≤ m.height := by unfold Matrix.height; rw [hel]; exact hpos
  exact ⟨_, Matrix.width_of_rows m _ hpos' hrows', hrows', hpos'⟩

/-- A call of `operator+` that returns had operands of one width and one height. -/
theorem Matrix.addFrame_ok_dims (self a : Matrix) (f : Matrix.Frame)
    (h : Matrix.addFrame self a = .ok f) :
    ∃ w, self.width = .ok w ∧ a.width = .ok w ∧ a.height = self.height := by
  unfold Matrix.addFrame at h
  cases hsw : self.width with
  | error e => rw [hsw] at h; simp at h
  | ok w =>
    cases haw : a.width with
    | error e => rw [hsw, haw] at h; simp at h
    | ok aw =>
      rw [hsw, haw] at h
      simp only at h
      split at h
      · simp at h
      · rename_i hg
        have : aw = w ∧ a.height = self.height := by
          constructor
          · by_contra hc; exact hg (Or.inl hc)
          · by_contra hc; exact hg (Or.inr hc)
        exact ⟨w, rfl, by rw [this.1], this.2⟩

/-- A call of `operator-` that returns had operands of one width and one height. -/
theorem Matrix.subFrame_ok_dims (self a : Matrix) (f : Matrix.Frame)
    (h : Matrix.subFrame self a = .ok f) :
    ∃ w, self.width = .ok w ∧ a.width = .ok w ∧ a.height = self.height := by
  unfold Matrix.subFrame at h
  cases hsw : self.width with
  | error e => rw [hsw] at h; simp at h
  | ok w =>
    cases haw : a.width with
    | error e => rw [hsw, haw] at h; simp at h
    | ok aw =>
      rw [hsw, haw] at h
      simp only at h
      split at h
      · simp at h
      · rename_i hg
        have : aw = w ∧ a.height = self.height := by
          constructor
          · by_contra hc; exact hg (Or.inl hc)
          · by_contra hc; exact hg (Or.inr hc)
        exact ⟨w, rfl, by rw [this.1], this.2⟩

/-- In a uniform matrix of width `w` every row has length `w`. -/
theorem Matrix.Uniform.rows (m : Matrix) (w : Nat) (hu : m.Uniform) (hw : m.width = .ok w) :
    ∀ r ∈ m.elements, r.length = w := by
  obtain ⟨row, hrow, hlen⟩ := (Matrix.width_eq_ok m w).mp hw
  intro r hr
  rw [← hlen]
  exact hu r hr row (List.getElem?_mem hrow)

/-- A matrix whose rows all have length `w` is uniform. -/
theorem Matrix.Uniform.of_rows (m : Matrix) (w : Nat) (h : ∀ r ∈ m.elements, r.length = w) :
    m.Uniform := by
  intro r hr r' hr'
  rw [h r hr, h r' hr']

/-- The value of `operator+` on operands of one shape. -/
theorem Matrix.operator_plus_eq (self a : Matrix) (w : Nat)
    (hsw : self.width = .ok w) (haw : a.width = .ok w) (hh : a.height = self.height)
    (hsu : ∀ r ∈ self.elements, r.length = w) (hau : ∀ r ∈ a.elements, r.length = w) :
    Matrix.operator_plus self a =
      .ok ⟨List.zipWith (List.zipWith (· + ·)) a.elements self.elements⟩ := by
  unfold Matrix.operator_plus
  rw [Matrix.addFrame_eq self a w hsw haw hh hsu hau]

/-- The value of `operator-` on operands of one shape. -/
theorem Matrix.operator_minus_eq (self a : Matrix) (w : Nat)
    (hsw : self.width = .ok w) (haw : a.width = .ok w) (hh : a.height = self.height)
    (hsu : ∀ r ∈ self.elements, r.length = w) (hau : ∀ r ∈ a.elements, r.length = w) :
    Matrix.operator_minus self a =
      .ok ⟨List.zipWith (List.zipWith (· - ·)) self.elements a.elements⟩ := by
  unfold Matrix.operator_minus
  rw [Matrix.subFrame_eq self a w hsw haw hh hsu hau]

/-- C3: for two matrices built by the list constructor, `equal`, `==`, `!=`, `+` and `-` all
raise `DIMENSION_ERROR` (no value is returned) when the widths differ or the heights differ,
and none of them raises `DIMENSION_ERROR` when width and height agree. -/
theorem Matrix.dimension_error_iff_mismatch (la lb : List (List DOUBLE)) (a b : Matrix)
    (eps EQUAL_EPSILON : DOUBLE)
    (ha : Matrix.ofList la = .ok a) (hb : Matrix.ofList lb = .ok b) :
    ((a.width ≠ b.width ∨ a.height ≠ b.height) →
      a.equal b eps = .error Err.DIMENSION_ERROR ∧
      Matrix.operator_eq EQUAL_EPSILON a b = .error Err.DIMENSION_ERROR ∧
      Matrix.operator_ne EQUAL_EPSILON a b = .error Err.DIMENSION_ERROR ∧
      Matrix.operator_plus a b = .error Err.DIMENSION_ERROR ∧
      Matrix.operator_minus a b = .error Err.DIMENSION_ERROR) ∧
    ((a.width = b.width ∧ a.height = b.height) →
      a.equal b eps ≠ .error Err.DIMENSION_ERROR ∧
      Matrix.operator_eq EQUAL_EPSILON a b ≠ .error Err.DIMENSION_ERROR ∧
      Matrix.operator_ne EQUAL_EPSILON a b ≠ .error Err.DIMENSION_ERROR ∧
      Matrix.operator_plus a b ≠ .error Err.DIMENSION_ERROR ∧
      Matrix.operator_minus a b ≠ .error Err.DIMENSION_ERROR) := by
  obtain ⟨wa, hwa, hra, _⟩ := Matrix.ofList_width la a ha
  obtain ⟨wb, hwb, hrb, _⟩ := Matrix.ofList_width lb b hb
  constructor
  · intro hne
    have hne' : wb ≠ wa ∨ b.height ≠ a.height := by
      rcases hne with h | h
      · left; intro hc; apply h; rw [hwa, hwb, hc]
      · right; exact fun hc => h hc.symm
    have he : ∀ e, a.equal b e = .error Err.DIMENSION_ERROR :=
      fun e => Matrix.equal_mismatch a b e wa wb hwa hwb hne'
    refine ⟨he eps, he EQUAL_EPSILON, ?_, ?_, ?_⟩
    · unfold Matrix.operator_ne; rw [he EQUAL_EPSILON]
    · unfold Matrix.operator_plus; rw [Matrix.addFrame_mismatch a b wa wb hwa hwb hne']
    · unfold Matrix.operator_minus; rw [Matrix.subFrame_mismatch a b wa wb hwa hwb hne']
  · rintro ⟨hw, hh⟩
    have hww : wb = wa := by
      rw [hwa, hwb] at hw
      simp only [Except.ok.injEq] at hw
      exact hw.symm
    subst hww
    have he : ∀ e, ∃ r, a.equal b e = .ok r := fun e => by
      obtain ⟨r, hr, _⟩ := Matrix.equal_spec a b e wb hwa hwb hh.symm hra hrb
      exact ⟨r, hr⟩
    obtain ⟨r1, hr1⟩ := he eps
    obtain ⟨r2, hr2⟩ := he EQUAL_EPSILON
    refine ⟨by rw [hr1]; simp, by unfold Matrix.operator_eq; rw [hr2]; simp,
      by unfold Matrix.operator_ne; rw [hr2]; simp, ?_, ?_⟩
    · rw [Matrix.operator_plus_eq a b wb hwa hwb hh.symm hra hrb]; simp
    · rw [Matrix.operator_minus_eq a b wb hwa hwb hh.symm hra hrb]; simp

/-- C3 at the matrices `{{1,2}}` and `{{1,2},{3,4}}`, of different heights. -/
theorem Matrix.dimension_error_iff_mismatch_witness :
    Matrix.equal ⟨[[1, 2]]⟩ ⟨[[1, 2], [3, 4]]⟩ 1 = .error Err.DIMENSION_ERROR ∧
    Matrix.operator_eq 1 ⟨[[1, 2]]⟩ ⟨[[1, 2], [3, 4]]⟩ = .error Err.DIMENSION_ERROR ∧
    Matrix.operator_ne 1 ⟨[[1, 2]]⟩ ⟨[[1, 2], [3, 4]]⟩ = .error Err.DIMENSION_ERROR ∧
    Matrix.operator_plus ⟨[[1, 2]]⟩ ⟨[[1, 2], [3, 4]]⟩ = .error Err.DIMENSION_ERROR ∧
    Matrix.operator_minus ⟨[[1, 2]]⟩ ⟨[[1, 2], [3, 4]]⟩ = .error Err.DIMENSION_ERROR :=
  (Matrix.dimension_error_iff_mismatch [[1, 2]] [[1, 2], [3, 4]] ⟨[[1, 2]]⟩
    ⟨[[1, 2], [3, 4]]⟩ 1 1 (by decide) (by decide)).1 (Or.inr (by decide))

/-- C4: on two matrices of height `h ≥ 1` whose rows all have length `w`, `equal` returns a
value; it returns true exactly when `|a[i][j] - b[i][j]| < eps` for all `i < h`, `j < w`, and
false exactly when some cell pair fails that test. -/
theorem Matrix.equal_iff_cells (a b : Matrix) (w h : Nat) (eps : DOUBLE)
    (hh : 1 ≤ h) (hah : a.height = h) (hbh : b.height = h)
    (hau : ∀ r ∈ a.elements, r.length = w) (hbu : ∀ r ∈ b.elements, r.length = w) :
    (a.equal b eps = .ok true ∨ a.equal b eps = .ok false) ∧
    (a.equal b eps = .ok true ↔ ∀ i j, i < h → j < w →
      ∃ x y, a.cell i j = .ok x ∧ b.cell i j = .ok y ∧ |x - y| < eps) ∧
    (a.equal b eps = .ok false ↔ ∃ i j, i < h ∧ j < w ∧
      ∃ x y, a.cell i j = .ok x ∧ b.cell i j = .ok y ∧ ¬ |x - y| < eps) := by
  have haw := Matrix.width_of_rows a w (by omega) hau
  have hbw := Matrix.width_of_rows b w (by omega) hbu
  obtain ⟨r, hr, hiff⟩ := Matrix.equal_spec a b eps w haw hbw (by omega) hau hbu
  have hcells : (∀ k, k < a.height → ∀ l, l < w →
        TMath.equal ((a.elements.getD k []).getD l 0) ((b.elements.getD k []).getD l 0) eps
          = true) ↔
      ∀ i j, i < h → j < w → ∃ x y, a.cell i j = .ok x ∧ b.cell i j = .ok y ∧ |x - y| < eps := by
    constructor
    · intro hall i j hi hj
      obtain ⟨x, hx, hxe⟩ := Matrix.cell_in_range a w i j hau (by omega) hj
      obtain ⟨y, hy, hye⟩ := Matrix.cell_in_range b w i j hbu (by omega) hj
      refine ⟨x, y, hx, hy, ?_⟩
      have := hall i (by omega) j hj
      rw [hxe, hye] at this
      exact (equal_eq_true x y eps).mp this
    · intro hall k hk l hl
      obtain ⟨x, y, hx, hy, hlt⟩ := hall k l (by omega) hl
      obtain ⟨x', hx', hxe⟩ := Matrix.cell_in_range a w k l hau hk hl
      obtain ⟨y', hy', hye⟩ := Matrix.cell_in_range b w k l hbu (by omega) hl
      rw [hx] at hx'; rw [hy] at hy'
      simp only [Except.ok.injEq] at hx' hy'
      rw [hxe, hye, ← hx', ← hy']
      exact (equal_eq_true x y eps).mpr hlt
  have htrue : a.equal b eps = .ok true ↔ ∀ i j, i < h → j < w →
      ∃ x y, a.cell i j = .ok x ∧ b.cell i j = .ok y ∧ |x - y| < eps := by
    rw [← hcells, ← hiff, hr]
    simp
  refine ⟨?_, htrue, ?_⟩
  · rw [hr]; cases r <;> simp
  · constructor
    · intro hf
      by_contra hne
      have : a.equal b eps = .ok true := by
        rw [htrue]
        intro i j hi hj
        obtain ⟨x, hx, _⟩ := Matrix.cell_in_range a w i j hau (by omega) hj
        obtain ⟨y, hy, _⟩ := Matrix.cell_in_range b w i j hbu (by omega) hj
        refine ⟨x, y, hx, hy, ?_⟩
        by_contra hlt
        exact hne ⟨i, j, hi, hj, x, y, hx, hy, hlt⟩
      rw [hf] at this
      simp at this
    · rintro ⟨i, j, hi, hj, x, y, hx, hy, hlt⟩
      have hnt : ¬ a.equal b eps = .ok true := by
        rw [htrue]
        intro hall
        obtain ⟨x', y', hx', hy', hlt'⟩ := hall i j hi hj
        rw [hx] at hx'; rw [hy] at hy'
        simp only [Except.ok.injEq] at hx' hy'
        subst hx' hy'
        exact hlt hlt'
      rw [hr] at hnt ⊢
      cases r
      · rfl
      · exact absurd rfl hnt

/-- C4 at the matrices `{{1,2},{3,4}}` and `{{1,2},{3,5}}` with `eps = 1/2`: `equal` returns
false, the cell pair `(1, 1)` failing the test. -/
theorem Matrix.equal_iff_cells_witness :
    Matrix.equal ⟨[[1, 2], [3, 4]]⟩ ⟨[[1, 2], [3, 5]]⟩ (1 / 2) = .ok false :=
  ((Matrix.equal_iff_cells ⟨[[1, 2], [3, 4]]⟩ ⟨[[1, 2], [3, 5]]⟩ 2 2 (1 / 2) (by decide)
    (by decide) (by decide) (by simp) (by simp)).2.2).mpr
    ⟨1, 1, by decide, by decide, 4, 5, by decide, by decide, by norm_num⟩

/-- C5: for `a` and `b` of width `w` and height `h`, all rows of length `w`, the call `a + b`
returns; the returned matrix has height `h`, width `w`, all rows of length `w`, and cell
`(i, j)` equal to `a[i][j] + b[i][j]`; the operands are at the end what they were. -/
theorem Matrix.operator_plus_cells (a b : Matrix) (w h : Nat)
    (haw : a.width = .ok w) (hbw : b.width = .ok w) (hah : a.height = h) (hbh : b.height = h)
    (hau : ∀ r ∈ a.elements, r.length = w) (hbu : ∀ r ∈ b.elements, r.length = w) :
    ∃ f, Matrix.addFrame a b = .ok f ∧ Matrix.operator_plus a b = .ok f.result ∧
      f.self = a ∧ f.a = b ∧
      f.result.height = h ∧ f.result.width = .ok w ∧
      (∀ r ∈ f.result.elements, r.length = w) ∧
      ∀ i j, i < h → j < w →
        ∃ x y, a.cell i j = .ok x ∧ b.cell i j = .ok y ∧ f.result.cell i j = .ok (x + y) := by
  have hh : b.height = a.height := by omega
  have hf := Matrix.addFrame_eq a b w haw hbw hh hau hbu
  obtain ⟨hzh, hzr, hzc⟩ := Matrix.zipWith_spec (· + ·) b a w hbu hau hh
  have hpos := Matrix.height_pos_of_width a w haw
  refine ⟨_, hf, by unfold Matrix.operator_plus; rw [hf], rfl, rfl, by rw [hzh]; exact hbh,
    Matrix.width_of_rows _ w (by rw [hzh]; omega) hzr, hzr, ?_⟩
  intro i j hi hj
  obtain ⟨y, x, hy, hx, hc⟩ := hzc i j (by omega) hj
  exact ⟨x, y, hx, hy, by rw [hc, add_comm]⟩

/-- C5 at the matrices `{{1,2},{3,4}}` and `{{10,20},{30,40}}`. -/
theorem Matrix.operator_plus_cells_witness :
    ∃ f, Matrix.addFrame ⟨[[1, 2], [3, 4]]⟩ ⟨[[10, 20], [30, 40]]⟩ = .ok f ∧
      Matrix.operator_plus ⟨[[1, 2], [3, 4]]⟩ ⟨[[10, 20], [30, 40]]⟩ = .ok f.result ∧
      f.self = ⟨[[1, 2], [3, 4]]⟩ ∧ f.a = ⟨[[10, 20], [30, 40]]⟩ ∧
      f.result.height = 2 ∧ f.result.width = .ok 2 ∧
      (∀ r ∈ f.result.elements, r.length = 2) ∧
      ∀ i j, i < 2 → j < 2 →
        ∃ x y, Matrix.cell ⟨[[1, 2], [3, 4]]⟩ i j = .ok x ∧
          Matrix.cell ⟨[[10, 20], [30, 40]]⟩ i j = .ok y ∧ f.result.cell i j = .ok (x + y) :=
  Matrix.operator_plus_cells ⟨[[1, 2], [3, 4]]⟩ ⟨[[10, 20], [30, 40]]⟩ 2 2 (by decide)
    (by decide) (by decide) (by decide) (by simp) (by simp)

/-- C6: for `a` and `b` of width `w` and height `h`, all rows of length `w`, the call `a - b`
returns; the returned matrix has height `h`, width `w`, all rows of length `w`, and cell
`(i, j)` equal to `a[i][j] - b[i][j]`; the operands are at the end what they were. -/
theorem Matrix.operator_minus_cells (a b : Matrix) (w h : Nat)
    (haw : a.width = .ok w) (hbw : b.width = .ok w) (hah : a.height = h) (hbh : b.height = h)
    (hau : ∀ r ∈ a.elements, r.length = w) (hbu : ∀ r ∈ b.elements, r.length = w) :
    ∃ f, Matrix.subFrame a b = .ok f ∧ Matrix.operator_minus a b = .ok f.result ∧
      f.self = a ∧ f.a = b ∧
      f.result.height = h ∧ f.result.width = .ok w ∧
      (∀ r ∈ f.result.elements, r.length = w) ∧
      ∀ i j, i < h → j < w →
        ∃ x y, a.cell i j = .ok x ∧ b.cell i j = .ok y ∧ f.result.cell i j = .ok (x - y) := by
  have hh : b.height = a.height := by omega
  have hf := Matrix.subFrame_eq a b w haw hbw hh hau hbu
  obtain ⟨hzh, hzr, hzc⟩ := Matrix.zipWith_spec (· - ·) a b w hau hbu hh.symm
  have hpos := Matrix.height_pos_of_width a w haw
  refine ⟨_, hf, by unfold Matrix.operator_minus; rw [hf], rfl, rfl, by rw [hzh]; exact hah,
    Matrix.width_of_rows _ w (by rw [hzh]; omega) hzr, hzr, ?_⟩
  intro i j hi hj
  exact hzc i j (by omega) hj

/-- C6 at the matrices `{{1,2},{3,4}}` and `{{10,20},{30,40}}`. -/
theorem Matrix.operator_minus_cells_witness :
    ∃ f, Matrix.subFrame ⟨[[1, 2], [3, 4]]⟩ ⟨[[10, 20], [30, 40]]⟩ = .ok f ∧
      Matrix.operator_minus ⟨[[1, 2], [3, 4]]⟩ ⟨[[10, 20], [30, 40]]⟩ = .ok f.result ∧
      f.self = ⟨[[1, 2], [3, 4]]⟩ ∧ f.a = ⟨[[10, 20], [30, 40]]⟩ ∧
      f.result.height = 2 ∧ f.result.width = .ok 2 ∧
      (∀ r ∈ f.result.elements, r.length = 2) ∧
      ∀ i j, i < 2 → j < 2 →
        ∃ x y, Matrix.cell ⟨[[1, 2], [3, 4]]⟩ i j = .ok x ∧
          Matrix.cell ⟨[[10, 20], [30, 40]]⟩ i j = .ok y ∧ f.result.cell i j = .ok (x - y) :=
  Matrix.operator_minus_cells ⟨[[1, 2], [3, 4]]⟩ ⟨[[10, 20], [30, 40]]⟩ 2 2 (by decide)
    (by decide) (by decide) (by decide) (by simp) (by simp)

/-- C9: for every matrix `m` the copy constructor returns a matrix with as many rows as `m`
and with each row equal to the row of `m` at that index; a write to a cell of the copy,
which goes through whenever `m` has that cell, leaves `m` and all its cells as they were. -/
theorem Matrix.copy_is_deep (m : Matrix) :
    ∃ p, Matrix.CopyPair.construct m = .ok p ∧ Matrix.copy m = .ok p.c ∧ p.m = m ∧
      p.c.height = m.height ∧ (∀ i : Nat, p.c.elements[i]? = m.elements[i]?) ∧
      (∀ i j x y, m.cell i j = .ok y → ∃ q, p.write i j x = .ok q) ∧
      ∀ i j x q, p.write i j x = .ok q →
        q.m = m ∧ q.c.cell i j = .ok x ∧ ∀ k l, q.m.cell k l = m.cell k l := by
  have hwrite : ∀ i j x (q : Matrix.CopyPair),
      Matrix.CopyPair.write ⟨m, m⟩ i j x = .ok q →
      ∃ row, m.elements[i]? = some row ∧ j < row.length ∧
        q = ⟨m, ⟨m.elements.set i (row.set j x)⟩⟩ := by
    intro i j x q hq
    unfold Matrix.CopyPair.write Matrix.setCell at hq
    simp only at hq
    cases hg : vecGet m.elements i with
    | error e => rw [hg] at hq; simp at hq
    | ok row =>
      rw [hg] at hq
      simp only [vecSet] at hq
      by_cases hj : j < row.length
      · simp only [hj, if_true, Except.ok.injEq] at hq
        exact ⟨row, (vecGet_eq_ok _ _ _).mp hg, hj, hq.symm⟩
      · simp [hj] at hq
  refine ⟨⟨m, m⟩, by unfold Matrix.CopyPair.construct; rw [Matrix.copy_eq], Matrix.copy_eq m,
    rfl, rfl, fun _ => rfl, ?_, ?_⟩
  · intro i j x y hy
    unfold Matrix.cell at hy
    cases hg : vecGet m.elements i with
    | error e => rw [hg] at hy; simp at hy
    | ok row =>
      rw [hg] at hy
      have hj : j < row.length := by
        rcases List.getElem?_eq_some.mp ((vecGet_eq_ok _ _ _).mp hy) with ⟨hlt, _⟩
        exact hlt
      refine ⟨⟨m, ⟨m.elements.set i (row.set j x)⟩⟩, ?_⟩
      unfold Matrix.CopyPair.write
      rw [Matrix.setCell_of_row m i j x row ((vecGet_eq_ok _ _ _).mp hg) hj]
  · intro i j x q hq
    obtain ⟨row, hrow, hj, rfl⟩ := hwrite i j x q hq
    refine ⟨rfl, ?_, fun _ _ => rfl⟩
    have hi : i < m.elements.length := by
      rcases List.getElem?_eq_some.mp hrow with ⟨hlt, _⟩; exact hlt
    have hrow' : (⟨m.elements.set i (row.set j x)⟩ : Matrix).elements[i]?
        = some (row.set j x) := by
      simp [List.getElem?_set, hi]
    rw [Matrix.cell_of_row _ i j _ hrow' (by simpa using hj)]
    simp [List.getElem?_set, hj]

/-- C9 at the matrix `{{1,2},{3,4}}`, writing `9` to the cell `(0, 1)` of its copy. -/
theorem Matrix.copy_is_deep_witness :
    ∃ p q, Matrix.CopyPair.construct ⟨[[1, 2], [3, 4]]⟩ = .ok p ∧ p.write 0 1 9 = .ok q ∧
      q.m = ⟨[[1, 2], [3, 4]]⟩ ∧ q.c = ⟨[[1, 9], [3, 4]]⟩ := by
  obtain ⟨p, hp, _, _, _, _, hw, hq⟩ := Matrix.copy_is_deep ⟨[[1, 2], [3, 4]]⟩
  obtain ⟨q, hq'⟩ := hw 0 1 9 2 (by decide)
  refine ⟨p, q, hp, hq', (hq 0 1 9 q hq').1, ?_⟩
  have hp' : Matrix.CopyPair.construct ⟨[[1, 2], [3, 4]]⟩
      = .ok ⟨⟨[[1, 2], [3, 4]]⟩, ⟨[[1, 2], [3, 4]]⟩⟩ := by decide
  rw [hp'] at hp
  simp only [Except.ok.injEq] at hp
  subst hp
  have hq2 : Matrix.CopyPair.write ⟨⟨[[1, 2], [3, 4]]⟩, ⟨[[1, 2], [3, 4]]⟩⟩ 0 1 9
      = .ok ⟨⟨[[1, 2], [3, 4]]⟩, ⟨[[1, 9], [3, 4]]⟩⟩ := by decide
  rw [hq2] at hq'
  simp only [Except.ok.injEq] at hq'
  rw [← hq']

/-- C10: every matrix returned by the list constructor has all rows of one length; on uniform
matrices the copy constructor returns a uniform matrix of the same width and height, and
`operator+` and `operator-`, which return on operands of one width and height, return only
uniform matrices of the width and height of both operands. -/
theorem Matrix.uniform_invariant :
    (∀ list m, Matrix.ofList list = .ok m → m.Uniform) ∧
    (∀ m : Matrix, m.Uniform →
      ∃ c, Matrix.copy m = .ok c ∧ c.Uniform ∧ c.width = m.width ∧ c.height = m.height) ∧
    (∀ a b : Matrix, a.Uniform → b.Uniform →
      (∀ w, a.width = .ok w → b.width = .ok w → a.height = b.height →
        ∃ r, Matrix.operator_plus a b = .ok r) ∧
      (∀ r, Matrix.operator_plus a b = .ok r →
        r.Uniform ∧ r.width = a.width ∧ r.width = b.width ∧
          r.height = a.height ∧ r.height = b.height)) ∧
    (∀ a b : Matrix, a.Uniform → b.Uniform →
      (∀ w, a.width = .ok w → b.width = .ok w → a.height = b.height →
        ∃ r, Matrix.operator_minus a b = .ok r) ∧
      (∀ r, Matrix.operator_minus a b = .ok r →
        r.Uniform ∧ r.width = a.width ∧ r.width = b.width ∧
          r.height = a.height ∧ r.height = b.height)) := by
  refine ⟨?_, ?_, ?_, ?_⟩
  · intro list m h
    obtain ⟨w, _, hrows, _⟩ := Matrix.ofList_width list m h
    exact Matrix.Uniform.of_rows m w hrows
  · intro m hu
    exact ⟨m, Matrix.copy_eq m, hu, rfl, rfl⟩
  · intro a b hua hub
    constructor
    · intro w haw hbw hh
      exact ⟨_, Matrix.operator_plus_eq a b w haw hbw hh.symm
        (Matrix.Uniform.rows a w hua haw) (Matrix.Uniform.rows b w hub hbw)⟩
    · intro r hr
      cases hf : Matrix.addFrame a b with
      | error e => unfold Matrix.operator_plus at hr; rw [hf] at hr; simp at hr
      | ok f =>
        obtain ⟨w, haw, hbw, hh⟩ := Matrix.addFrame_ok_dims a b f hf
        have hra := Matrix.Uniform.rows a w hua haw
        have hrb := Matrix.Uniform.rows b w hub hbw
        rw [Matrix.operator_plus_eq a b w haw hbw hh hra hrb] at hr
        simp only [Except.ok.injEq] at hr
        subst hr
        obtain ⟨hzh, hzr, _⟩ := Matrix.zipWith_spec (· + ·) b a w hrb hra hh
        have hpos := Matrix.height_pos_of_width a w haw
        have hrw := Matrix.width_of_rows _ w (by rw [hzh]; omega) hzr
        exact ⟨Matrix.Uniform.of_rows _ w hzr, by rw [hrw, haw], by rw [hrw, hbw],
          by rw [hzh, hh], hzh⟩
  · intro a b hua hub
    constructor
    · intro w haw hbw hh
      exact ⟨_, Matrix.operator_minus_eq a b w haw hbw hh.symm
        (Matrix.Uniform.rows a w hua haw) (Matrix.Uniform.rows b w hub hbw)⟩
    · intro r hr
      cases hf : Matrix.subFrame a b with
      | error e => unfold Matrix.operator_minus at hr; rw [hf] at hr; simp at hr
      | ok f =>
        obtain ⟨w, haw, hbw, hh⟩ := Matrix.subFrame_ok_dims a b f hf
        have hra := Matrix.Uniform.rows a w hua haw
        have hrb := Matrix.Uniform.rows b w hub hbw
        rw [Matrix.operator_minus_eq a b w haw hbw hh hra hrb] at hr
        simp only [Except.ok.injEq] at hr
        subst hr
        obtain ⟨hzh, hzr, _⟩ := Matrix.zipWith_spec (· - ·) a b w hra hrb hh.symm
        have hpos := Matrix.height_pos_of_width a w haw
        have hrw := Matrix.width_of_rows _ w (by rw [hzh]; omega) hzr
        exact ⟨Matrix.Uniform.of_rows _ w hzr, by rw [hrw, haw], by rw [hrw, hbw],
          hzh, by rw [hzh, hh]⟩

/-- C10 at the matrices `{{1,2},{3,4}}` and `{{10,20},{30,40}}`: their sum is returned and it
is uniform. -/
theorem Matrix.uniform_invariant_witness :
    ∃ r, Matrix.operator_plus ⟨[[1, 2], [3, 4]]⟩ ⟨[[10, 20], [30, 40]]⟩ = .ok r ∧ r.Uniform := by
  obtain ⟨r, hr⟩ := (Matrix.uniform_invariant.2.2.1 ⟨[[1, 2], [3, 4]]⟩ ⟨[[10, 20], [30, 40]]⟩
    (by decide) (by decide)).1 2 (by decide) (by decide) (by decide)
  exact ⟨r, hr, ((Matrix.uniform_invariant.2.2.1 ⟨[[1, 2], [3, 4]]⟩ ⟨[[10, 20], [30, 40]]⟩
    (by decide) (by decide)).2 r hr).1⟩

/-- C11: the sized constructor `Vector(N)` fails with the empty-vector error for every
`N < 1`, and for every `N ≥ 1` it returns a vector of `N` zeros; `Vector(0)` is rejected. -/
theorem Vector.sized_error_iff (n : Int) :
    (n < 1 → Vector.sized n = .error VectorError.EmptyVectorError) ∧
    (1 ≤ n → ∃ v, Vector.sized n = .ok v ∧ (v.elements.length : Int) = n ∧
      ∀ x ∈ v.elements, x = 0) ∧
    Vector.sized 0 = .error VectorError.EmptyVectorError := by
  refine ⟨?_, ?_, by decide⟩
  · intro h
    unfold Vector.sized
    rw [if_pos h]
  · intro h
    refine ⟨⟨List.replicate n.toNat 0⟩, ?_, ?_, ?_⟩
    · unfold Vector.sized
      rw [if_neg (by omega)]
    · simp only [List.length_replicate]
      omega
    · intro x hx
      exact (List.mem_replicate.mp hx).2

/-- C11 at `N = -2` and `N = 3`. -/
theorem Vector.sized_error_iff_witness :
    Vector.sized (-2) = .error VectorError.EmptyVectorError ∧
    ∃ v, Vector.sized 3 = .ok v ∧ (v.elements.length : Int) = 3 ∧ ∀ x ∈ v.elements, x = 0 :=
  ⟨(Vector.sized_error_iff (-2)).1 (by decide), (Vector.sized_error_iff 3).2.1 (by decide)⟩

/-- The modelled `norm` in general: it raises the division error when the components sum to
zero; otherwise it returns a vector of the same length whose component `i` is `v[i]` divided
by the sum of the components. -/
theorem Vector.norm_spec (v : Vector) :
    (v.sum = 0 → v.norm = .error VectorError.DivisionError) ∧
    (v.sum ≠ 0 → ∃ r, v.norm = .ok r ∧ r.elements.length = v.elements.length ∧
      ∀ (i : Nat) (x : DOUBLE), v.elements[i]? = some x →
        r.elements[i]? = some (x / v.sum)) := by
  constructor
  · intro h
    unfold Vector.norm
    rw [if_pos h]
  · intro h
    refine ⟨⟨v.elements.map (fun x => x / v.sum)⟩, ?_, by simp, ?_⟩
    · unfold Vector.norm
      rw [if_neg h]
    · intro i x hx
      simp [List.getElem?_map, hx]

/-- The modelled `norm` at the vectors of the tests: the norm of each unit axis vector is the
vector itself, the norm of the vector without components fails, and the components of
`norm({2,2,1})` are those of `{2,2,1}` divided by `5`. -/
theorem Vector.norm_at_test_vectors :
    Vector.norm ⟨[1, 0, 0]⟩ = .ok ⟨[1, 0, 0]⟩ ∧
    Vector.norm ⟨[0, 1, 0]⟩ = .ok ⟨[0, 1, 0]⟩ ∧
    Vector.norm ⟨[0, 0, 1]⟩ = .ok ⟨[0, 0, 1]⟩ ∧
    Vector.norm ⟨[]⟩ = .error VectorError.DivisionError ∧
    ∃ r, Vector.norm ⟨[2, 2, 1]⟩ = .ok r ∧ r.elements.length = 3 ∧
      r.elements[0]? = some (2 / 5) ∧ r.elements[1]? = some (2 / 5) ∧
      r.elements[2]? = some (1 / 5) := by
  have h5 : Vector.sum ⟨[2, 2, 1]⟩ = 5 := by simp [Vector.sum]; norm_num
  refine ⟨?_, ?_, ?_, (Vector.norm_spec ⟨[]⟩).1 (by simp [Vector.sum]), ?_⟩
  · simp [Vector.norm, Vector.sum]
  · simp [Vector.norm, Vector.sum]
  · simp [Vector.norm, Vector.sum]
  · obtain ⟨r, hr, hlen, hcells⟩ := (Vector.norm_spec ⟨[2, 2, 1]⟩).2 (by rw [h5]; norm_num)
    rw [h5] at hcells
    exact ⟨r, hr, hlen, hcells 0 2 rfl, hcells 1 2 rfl, hcells 2 1 rfl⟩

/-- Equality under a positive epsilon of a vector with itself. -/
theorem Vector.equal_same_vector (v : Vector) (eps : DOUBLE) (heps : 0 < eps) :
    v.equal v eps = .ok true := by
  unfold Vector.equal
  simp only [ne_eq, not_true_eq_false, if_false, Except.ok.injEq, List.all_eq_true]
  intro b hb
  obtain ⟨k, hk, hkb⟩ := List.getElem_of_mem hb
  rw [List.getElem_zipWith] at hkb
  subst hkb
  simp [TMath.equal, heps]

/-- C13: on two vectors of dimension 3 `cross` returns the standard cross product; then
`a.cross(b)` is the negation of `b.cross(a)`, also under `==` with a positive epsilon, and
`a.cross(a)` is the zero vector; when an operand has another dimension `cross` raises the
dimension error. -/
theorem Vector.cross_spec (a b : Vector) :
    (∀ a0 a1 a2 b0 b1 b2, a.elements = [a0, a1, a2] → b.elements = [b0, b1, b2] →
      a.cross b = .ok ⟨[a1 * b2 - a2 * b1, a2 * b0 - a0 * b2, a0 * b1 - a1 * b0]⟩ ∧
      (∃ c d, a.cross b = .ok c ∧ b.cross a = .ok d ∧ c = d.neg ∧
        ∀ EQUAL_EPSILON, 0 < EQUAL_EPSILON →
          Vector.operator_eq EQUAL_EPSILON c d.neg = .ok true) ∧
      a.cross a = .ok ⟨[0, 0, 0]⟩) ∧
    ((a.elements.length ≠ 3 ∨ b.elements.length ≠ 3) →
      a.cross b = .error VectorError.DimensionError) := by
  constructor
  · intro a0 a1 a2 b0 b1 b2 ha hb
    have hab : a.cross b = .ok ⟨[a1 * b2 - a2 * b1, a2 * b0 - a0 * b2, a0 * b1 - a1 * b0]⟩ := by
      simp only [Vector.cross, ha, hb]
    have hba : b.cross a = .ok ⟨[b1 * a2 - b2 * a1, b2 * a0 - b0 * a2, b0 * a1 - b1 * a0]⟩ := by
      simp only [Vector.cross, ha, hb]
    have hneg : (⟨[a1 * b2 - a2 * b1, a2 * b0 - a0 * b2, a0 * b1 - a1 * b0]⟩ : Vector) =
        Vector.neg ⟨[b1 * a2 - b2 * a1, b2 * a0 - b0 * a2, b0 * a1 - b1 * a0]⟩ := by
      simp only [Vector.neg, List.map_cons, List.map_nil, Vector.mk.injEq, List.cons.injEq,
        and_true]
      refine ⟨by ring, by ring, by ring⟩
    refine ⟨hab, ⟨_, _, hab, hba, hneg, ?_⟩, ?_⟩
    · intro e he
      rw [← hneg]
      exact Vector.equal_same_vector _ e he
    · simp only [Vector.cross, ha]
      simp [mul_comm]
  · intro h
    unfold Vector.cross
    split
    · rename_i ha hb
      rw [ha, hb] at h
      simp at h
    · rfl

/-- C13 at the vectors of the tests: `{1,1,1} x {1,0,0} = {0,1,-1}`, and `cross` with the
vector without components fails. -/
theorem Vector.cross_spec_witness :
    Vector.cross ⟨[1, 1, 1]⟩ ⟨[1, 0, 0]⟩ = .ok ⟨[0, 1, -1]⟩ ∧
    Vector.cross ⟨[1, 1, 1]⟩ ⟨[]⟩ = .error VectorError.DimensionError := by
  refine ⟨?_, (Vector.cross_spec ⟨[1, 1, 1]⟩ ⟨[]⟩).2 (Or.inr (by decide))⟩
  have h := ((Vector.cross_spec ⟨[1, 1, 1]⟩ ⟨[1, 0, 0]⟩).1 1 1 1 1 0 0 rfl rfl).1
  rw [h]
  norm_num

/-- A loop whose first statement fails, fails. -/
theorem forLoop_first_error {σ : Type} (body : Nat → σ → Except Err σ) (start count : Nat)
    (s : σ) (e : Err) (hpos : 0 < count) (h : body start s = .error e) :
    forLoop body start count s = .error e := by
  cases count with
  | zero => omega
  | succ c => simp [forLoop, h]

/-- A loop that returns keeps every property of the state that its statement keeps. -/
theorem forLoop_preserves {σ : Type} (body : Nat → σ → Except Err σ) (P : σ → Prop)
    (hbody : ∀ i s s', P s → body i s = .ok s' → P s') :
    ∀ (count start : Nat) (s s' : σ), P s → forLoop body start count s = .ok s' → P s' := by
  intro count
  induction count with
  | zero =>
    intro start s s' hP h
    simp only [forLoop, Except.ok.injEq] at h
    rw [← h]; exact hP
  | succ c ih =>
    intro start s s' hP h
    unfold forLoop at h
    cases hb : body start s with
    | error e => rw [hb] at h; simp at h
    | ok t =>
      rw [hb] at h
      exact ih (start + 1) t s' (hbody start s t hP hb) h

/-- The value of `n - 1` on `size_t` for a size `n ≥ 1`. -/
theorem Matrix.size_pred_of_pos (n : Nat) (h1 : 1 ≤ n) (h2 : n < Matrix.SIZE_MODULUS) :
    Matrix.size_pred n = n - 1 := by
  unfold Matrix.size_pred
  unfold Matrix.SIZE_MODULUS at *
  omega

/-- The value of `0 - 1` on `size_t`. -/
theorem Matrix.size_pred_zero : Matrix.size_pred 0 = 2 ^ 64 - 1 := by
  unfold Matrix.size_pred Matrix.SIZE_MODULUS
  norm_num

/-- The text of a list with at least two entries. -/
theorem Matrix.joinWith_cons (sep x : String) (rest : List String) (h : rest ≠ []) :
    Matrix.joinWith sep (x :: rest) = x ++ sep ++ Matrix.joinWith sep rest := by
  cases rest with
  | nil => exact absurd rfl h
  | cons y ys => rfl

/-- The inner loop of `to_string` on a row of length `w`, from column `start` up to column
`w - 1`: with the last cell appended, the stream has gained the cells from `start` on,
separated by `", "`. -/
theorem Matrix.writeCells_spec (fmt : DOUBLE → String) (self : Matrix) (i w : Nat)
    (row : List DOUBLE) (hrow : self.elements[i]? = some row) (hlen : row.length = w) :
    ∀ (count start : Nat) (s : String), start + count + 1 = w →
      ∃ s', forLoop (Matrix.writeCell fmt self i) start count s = .ok s' ∧
        s' ++ fmt (row.getD (w - 1) 0) =
          s ++ Matrix.joinWith ", " ((row.drop start).map fmt) := by
  intro count
  induction count with
  | zero =>
    intro start s h
    refine ⟨s, rfl, ?_⟩
    have hs : start < row.length := by omega
    have hw : w - 1 = start := by omega
    rw [hw, List.drop_eq_getElem_cons hs, List.drop_of_length_le (by omega)]
    simp [Matrix.joinWith, List.getElem?_eq_getElem hs]
  | succ c ih =>
    intro start s h
    have hs : start < row.length := by omega
    obtain ⟨s', hs', heq⟩ := ih (start + 1) (s ++ fmt (row.getD start 0) ++ ", ") (by omega)
    refine ⟨s', ?_, ?_⟩
    · simp only [forLoop, Matrix.writeCell, Matrix.cell_of_row self i start row hrow hs]
      exact hs'
    · rw [heq, List.drop_eq_getElem_cons hs, List.map_cons,
        Matrix.joinWith_cons _ _ _ (by
          intro hnil
          have := congrArg List.length hnil
          simp at this
          omega)]
      simp [List.getElem?_eq_getElem hs, String.append_assoc]

/-- The body of the outer loop of `to_string` on a row of length `w ≥ 1`: the stream gains
the text of the row, followed by `"], ["` on every row but the last. -/
theorem Matrix.writeRow_spec (fmt : DOUBLE → String) (self : Matrix) (i w h : Nat)
    (row : List DOUBLE) (hrow : self.elements[i]? = some row) (hlen : row.length = w)
    (hw : 1 ≤ w) (hw2 : w < Matrix.SIZE_MODULUS) (hh : 1 ≤ h) (hh2 : h < Matrix.SIZE_MODULUS)
    (s : String) :
    Matrix.writeRow fmt self w h i s =
      .ok (s ++ Matrix.joinWith ", " (row.map fmt) ++ (if i < h - 1 then "], [" else "")) := by
  obtain ⟨s', hs', heq⟩ := Matrix.writeCells_spec fmt self i w row hrow hlen (w - 1) 0 s
    (by omega)
  simp only [List.drop_zero] at heq
  have hcell := Matrix.cell_of_row self i (w - 1) row hrow (by omega)
  simp only [Matrix.writeRow, Matrix.size_pred_of_pos w hw hw2,
    Matrix.size_pred_of_pos h hh hh2, hs', hcell]
  by_cases hi : i < h - 1
  · simp only [hi, if_true, heq]
  · simp only [hi, if_false, heq, String.append_empty]

/-- The outer loop of `to_string` from row `start` on: the stream gains the texts of the rows
from `start` on, separated by `"], ["`. -/
theorem Matrix.writeRows_spec (fmt : DOUBLE → String) (self : Matrix) (w h : Nat)
    (hh : self.height = h) (hu : ∀ r ∈ self.elements, r.length = w)
    (hw : 1 ≤ w) (hw2 : w < Matrix.SIZE_MODULUS) (hh2 : h < Matrix.SIZE_MODULUS) :
    ∀ (count start : Nat) (s : String), start + count = h →
      forLoop (Matrix.writeRow fmt self w h) start count s =
        .ok (s ++ Matrix.joinWith "], ["
          ((self.elements.drop start).map (fun row => Matrix.joinWith ", " (row.map fmt)))) := by
  unfold Matrix.height at hh
  intro count
  induction count with
  | zero =>
    intro start s h0
    rw [List.drop_of_length_le (by omega)]
    simp [forLoop, Matrix.joinWith]
  | succ c ih =>
    intro start s h0
    have hs : start < self.elements.length := by omega
    have hrow : self.elements[start]? = some (self.elements[start]) :=
      List.getElem?_eq_getElem hs
    have hlen := hu _ (List.getElem?_mem hrow)
    have hstep := Matrix.writeRow_spec fmt self start w h _ hrow hlen hw hw2 (by omega) hh2 s
    simp only [forLoop, hstep]
    rw [ih (start + 1) _ (by omega), List.drop_eq_getElem_cons hs, List.map_cons]
    by_cases hc : c = 0
    · subst hc
      have hlast : ¬ start < h - 1 := by omega
      rw [List.drop_of_length_le (by omega)]
      simp [hlast, Matrix.joinWith]
    · have hlt : start < h - 1 := by omega
      rw [Matrix.joinWith_cons _ _ _ (by
        intro hnil
        have := congrArg List.length hnil
        simp at this
        omega)]
      simp [hlt, String.append_assoc]

/-- C14: on a matrix of height `h ≥ 1` whose rows all have length `w ≥ 1` (sizes being values
of `size_t`), `to_string` returns the text `{[`, the rows in order separated by `], [`,
then `]}`, each row being its cells in column order, formatted by the stream and separated
by `, `. -/
theorem Matrix.to_string_rendered (fmt : DOUBLE → String) (m : Matrix) (w h : Nat)
    (hh : 1 ≤ h) (hw : 1 ≤ w) (hmh : m.height = h) (hu : ∀ r ∈ m.elements, r.length = w)
    (hw2 : w < Matrix.SIZE_MODULUS) (hh2 : h < Matrix.SIZE_MODULUS) :
    Matrix.to_string fmt m = .ok (Matrix.rendered fmt m) ∧
    Matrix.rendered fmt m =
      "\x7b[" ++ Matrix.joinWith "], ["
        (m.elements.map (fun row => Matrix.joinWith ", " (row.map fmt))) ++ "]\x7d" := by
  refine ⟨?_, rfl⟩
  have hwid := Matrix.width_of_rows m w (by omega) hu
  unfold Matrix.to_string
  simp only [hwid, hmh]
  rw [Matrix.writeRows_spec fmt m w h hmh hu hw hw2 hh2 h 0 _ (by omega)]
  simp [Matrix.rendered]

/-- C14 at the matrix `{{1,2},{3,4}}`, the cells formatted as integers: the text is
`{[1, 2], [3, 4]}`. -/
theorem Matrix.to_string_rendered_witness :
    Matrix.to_string (fun x => toString x.num) ⟨[[1, 2], [3, 4]]⟩ =
      .ok "\x7b[1, 2], [3, 4]\x7d" := by
  rw [(Matrix.to_string_rendered (fun x => toString x.num) ⟨[[1, 2], [3, 4]]⟩ 2 2 (by decide)
    (by decide) rfl (by simp) (by decide) (by decide)).1]
  decide

/-- C15 (the code departs from the claim): in `Matrix(2, 1)` one row is allocated and the
zero-fill loop runs `index` up to `width = 2`; after the write to row 0 the write to row 1 is
out of range, and so is the run of the constructor. -/
theorem Matrix.sized_two_one_out_of_range :
    Matrix.zeroRow 2 0 (List.replicate 1 []) = .ok [[0, 0]] ∧
    Matrix.zeroRow 2 1 [[0, 0]] = .error Err.OUT_OF_RANGE ∧
    Matrix.sized 2 1 = .error Err.OUT_OF_RANGE := by
  refine ⟨by decide, by decide, by decide⟩

/-- C16 (the code departs from the claim): the list constructor accepts `{{}}`, a matrix of
height 1 and width 0; in `to_string` the bound `w - 1` of the inner loop wraps around to
`2^64 - 1`, the loop reads the cell `(0, 0)` of the empty row, and the run is out of range. -/
theorem Matrix.to_string_empty_row_out_of_range (fmt : DOUBLE → String) :
    Matrix.ofList [[]] = .ok ⟨[[]]⟩ ∧
    Matrix.width ⟨[[]]⟩ = .ok 0 ∧
    Matrix.size_pred 0 = 2 ^ 64 - 1 ∧
    Matrix.cell ⟨[[]]⟩ 0 0 = .error Err.OUT_OF_RANGE ∧
    Matrix.to_string fmt ⟨[[]]⟩ = .error Err.OUT_OF_RANGE := by
  have hcell : Matrix.cell ⟨[[]]⟩ 0 0 = .error Err.OUT_OF_RANGE := by decide
  refine ⟨by decide, by decide, Matrix.size_pred_zero, hcell, ?_⟩
  have hfirst : Matrix.writeCell fmt ⟨[[]]⟩ 0 0 "\x7b[" = .error Err.OUT_OF_RANGE := by
    simp only [Matrix.writeCell, hcell]
  have hinner : forLoop (Matrix.writeCell fmt ⟨[[]]⟩ 0) 0 (Matrix.size_pred 0) "\x7b["
      = .error Err.OUT_OF_RANGE :=
    forLoop_first_error _ 0 _ _ _ (by rw [Matrix.size_pred_zero]; norm_num) hfirst
  have hrow : Matrix.writeRow fmt ⟨[[]]⟩ 0 1 0 "\x7b[" = .error Err.OUT_OF_RANGE := by
    simp only [Matrix.writeRow, hinner]
  have hw : Matrix.width ⟨[[]]⟩ = .ok 0 := by decide
  have hh : Matrix.height ⟨[[]]⟩ = 1 := rfl
  have houter : forLoop (Matrix.writeRow fmt ⟨[[]]⟩ 0 1) 0 1 "\x7b["
      = .error Err.OUT_OF_RANGE :=
    forLoop_first_error _ 0 1 _ _ (by decide) hrow
  simp only [Matrix.to_string, hw, hh, houter]

/-- A matrix with at least one row has a width: `width()` reads row 0 in range. -/
theorem Matrix.width_of_height_pos (m : Matrix) (h : 1 ≤ m.height) : ∃ w, m.width = .ok w := by
  have h0 : 0 < m.elements.length := h
  exact ⟨_, (Matrix.width_eq_ok m _).mpr ⟨m.elements[0], List.getElem?_eq_getElem h0, rfl⟩⟩

/-- A write to a cell that returns keeps the number of rows. -/
theorem Matrix.setCell_height (m m' : Matrix) (i j : Nat) (x : DOUBLE)
    (h : m.setCell i j x = .ok m') : m'.height = m.height := by
  unfold Matrix.setCell at h
  cases hg : vecGet m.elements i with
  | error e => rw [hg] at h; simp at h
  | ok row =>
    rw [hg] at h
    simp only at h
    cases hs : vecSet row j x with
    | error e => rw [hs] at h; simp at h
    | ok row' =>
      rw [hs] at h
      simp only [Except.ok.injEq] at h
      rw [← h]
      simp [Matrix.height]

/-- The statement of `operator+` keeps the number of rows of `result`. -/
theorem Matrix.addCell_height (i j : Nat) (f f' : Matrix.Frame)
    (h : Matrix.addCell i j f = .ok f') : f'.result.height = f.result.height := by
  unfold Matrix.addCell at h
  cases h1 : f.self.cell i j with
  | error e => rw [h1] at h; simp at h
  | ok x =>
    cases h2 : f.result.cell i j with
    | error e => rw [h1, h2] at h; simp at h
    | ok r =>
      cases h3 : f.result.setCell i j (r + x) with
      | error e => rw [h1, h2] at h; simp only at h; rw [h3] at h; simp at h
      | ok res =>
        rw [h1, h2] at h
        simp only at h
        rw [h3] at h
        simp only [Except.ok.injEq] at h
        rw [← h]
        exact Matrix.setCell_height _ _ _ _ _ h3

/-- The statement of `operator-` keeps the number of rows of `result`. -/
theorem Matrix.subCell_height (i j : Nat) (f f' : Matrix.Frame)
    (h : Matrix.subCell i j f = .ok f') : f'.result.height = f.result.height := by
  unfold Matrix.subCell at h
  cases h1 : f.a.cell i j with
  | error e => rw [h1] at h; simp at h
  | ok x =>
    cases h2 : f.result.cell i j with
    | error e => rw [h1, h2] at h; simp at h
    | ok r =>
      cases h3 : f.result.setCell i j (r - x) with
      | error e => rw [h1, h2] at h; simp only at h; rw [h3] at h; simp at h
      | ok res =>
        rw [h1, h2] at h
        simp only at h
        rw [h3] at h
        simp only [Except.ok.injEq] at h
        rw [← h]
        exact Matrix.setCell_height _ _ _ _ _ h3

/-- A matrix returned by `operator+`, on any operands, has the number of rows of the
argument, which is at least one. -/
theorem Matrix.operator_plus_height (self a r : Matrix)
    (h : Matrix.operator_plus self a = .ok r) : r.height = a.height ∧ 1 ≤ a.height := by
  unfold Matrix.operator_plus at h
  cases hf : Matrix.addFrame self a with
  | error e => rw [hf] at h; simp at h
  | ok f =>
    rw [hf] at h
    simp only [Except.ok.injEq] at h
    subst h
    obtain ⟨w, hsw, haw, hh⟩ := Matrix.addFrame_ok_dims self a f hf
    refine ⟨?_, Matrix.height_pos_of_width a w haw⟩
    unfold Matrix.addFrame at hf
    simp only [hsw, haw, hh, Matrix.copy_eq, ne_eq, not_true_eq_false, or_self, if_false] at hf
    exact forLoop_preserves (Matrix.addRow w) (fun g => g.result.height = a.height)
      (fun i s s' hs hb =>
        forLoop_preserves (Matrix.addCell i) (fun g => g.result.height = a.height)
          (fun j t t' ht hb' => by
            show t'.result.height = a.height
            rw [Matrix.addCell_height i j t t' hb']; exact ht)
          w 0 s s' hs hb)
      self.height 0 _ f rfl hf

/-- A matrix returned by `operator-`, on any operands, has the number of rows of `*this`,
which is at least one. -/
theorem Matrix.operator_minus_height (self a r : Matrix)
    (h : Matrix.operator_minus self a = .ok r) : r.height = self.height ∧ 1 ≤ self.height := by
  unfold Matrix.operator_minus at h
  cases hf : Matrix.subFrame self a with
  | error e => rw [hf] at h; simp at h
  | ok f =>
    rw [hf] at h
    simp only [Except.ok.injEq] at h
    subst h
    obtain ⟨w, hsw, haw, hh⟩ := Matrix.subFrame_ok_dims self a f hf
    refine ⟨?_, Matrix.height_pos_of_width self w hsw⟩
    unfold Matrix.subFrame at hf
    simp only [hsw, haw, hh, Matrix.copy_eq, ne_eq, not_true_eq_false, or_self, if_false] at hf
    exact forLoop_preserves (Matrix.subRow w) (fun g => g.result.height = self.height)
      (fun i s s' hs hb =>
        forLoop_preserves (Matrix.subCell i) (fun g => g.result.height = self.height)
          (fun j t t' ht hb' => by
            show t'.result.height = self.height
            rw [Matrix.subCell_height i j t t' hb']; exact ht)
          w 0 s s' hs hb)
      self.height 0 _ f rfl hf

/-- A matrix returned by the sized constructor has `height` rows, at least one. -/
theorem Matrix.sized_height (width height : Int) (m : Matrix)
    (h : Matrix.sized width height = .ok m) : (m.height : Int) = height ∧ 1 ≤ m.height := by
  have hg : ¬ (width < 1 ∨ height < 1) := by
    intro hg
    unfold Matrix.sized at h
    rw [if_pos hg] at h
    simp at h
  by_cases hwh : width ≤ height
  · rw [Matrix.sized_of_le width height (by omega) hwh] at h
    simp only [Except.ok.injEq] at h
    subst h
    simp only [Matrix.height, List.length_append, List.length_replicate]
    omega
  · rw [Matrix.sized_of_gt width height (by omega) (by omega)] at h
    simp at h

/-- C17: every matrix returned by the list constructor or by the sized constructor has at
least one row; the copy constructor on a matrix with at least one row, and `operator+` and
`operator-` on operands with at least one row, return only matrices with at least one row;
on all these matrices `width()` reads row 0 in range. -/
theorem Matrix.at_least_one_row :
    (∀ list m, Matrix.ofList list = .ok m → 1 ≤ m.height ∧ ∃ w, m.width = .ok w) ∧
    (∀ width height m, Matrix.sized width height = .ok m →
      1 ≤ m.height ∧ ∃ w, m.width = .ok w) ∧
    (∀ m : Matrix, 1 ≤ m.height →
      ∃ c, Matrix.copy m = .ok c ∧ 1 ≤ c.height ∧ ∃ w, c.width = .ok w) ∧
    (∀ a b r : Matrix, 1 ≤ a.height → 1 ≤ b.height → Matrix.operator_plus a b = .ok r →
      1 ≤ r.height ∧ ∃ w, r.width = .ok w) ∧
    (∀ a b r : Matrix, 1 ≤ a.height → 1 ≤ b.height → Matrix.operator_minus a b = .ok r →
      1 ≤ r.height ∧ ∃ w, r.width = .ok w) := by
  refine ⟨?_, ?_, ?_, ?_, ?_⟩
  · intro list m h
    obtain ⟨w, hw, _, hpos⟩ := Matrix.ofList_width list m h
    exact ⟨hpos, w, hw⟩
  · intro width height m h
    have hpos := (Matrix.sized_height width height m h).2
    exact ⟨hpos, Matrix.width_of_height_pos m hpos⟩
  · intro m hpos
    exact ⟨m, Matrix.copy_eq m, hpos, Matrix.width_of_height_pos m hpos⟩
  · intro a b r _ hb h
    have hr : 1 ≤ r.height := by rw [(Matrix.operator_plus_height a b r h).1]; exact hb
    exact ⟨hr, Matrix.width_of_height_pos r hr⟩
  · intro a b r ha _ h
    have hr : 1 ≤ r.height := by rw [(Matrix.operator_minus_height a b r h).1]; exact ha
    exact ⟨hr, Matrix.width_of_height_pos r hr⟩

/-- C17 at the matrices returned by `Matrix(1, 2)` and by the sum of `{{1,2}}` and
`{{3,4}}`. -/
theorem Matrix.at_least_one_row_witness :
    (1 ≤ Matrix.height ⟨[[0], []]⟩ ∧ ∃ w, Matrix.width ⟨[[0], []]⟩ = .ok w) ∧
    (1 ≤ Matrix.height ⟨[[4, 6]]⟩ ∧ ∃ w, Matrix.width ⟨[[4, 6]]⟩ = .ok w) :=
  ⟨Matrix.at_least_one_row.2.1 1 2 ⟨[[0], []]⟩ (by decide),
    Matrix.at_least_one_row.2.2.2.1 ⟨[[1, 2]]⟩ ⟨[[3, 4]]⟩ ⟨[[4, 6]]⟩ (by decide) (by decide)
      (by simp [Matrix.operator_plus, Matrix.addFrame, Matrix.width, Matrix.height, vecGet,
        Matrix.copy, Matrix.copyRow, forLoop, vecSet, Matrix.addRow, Matrix.addCell,
        Matrix.cell, Matrix.setCell]; norm_num)⟩

/-- Adding a row and subtracting it again, cell by cell, gives the row back. -/
theorem zipWith_add_sub_row :
    ∀ (ra rb : List DOUBLE), ra.length = rb.length →
      List.zipWith (· - ·) (List.zipWith (· + ·) rb ra) rb = ra := by
  intro ra
  induction ra with
  | nil => intro rb _; cases rb <;> simp
  | cons x xs ih =>
    intro rb h
    cases rb with
    | nil => simp at h
    | cons y ys =>
      simp only [List.zipWith_cons_cons, List.cons.injEq]
      exact ⟨by ring, ih ys (by simpa using h)⟩

/-- Adding rows and subtracting them again, cell by cell, gives the rows back. -/
theorem zipWith_add_sub_rows (w : Nat) :
    ∀ (A B : List (List DOUBLE)), A.length = B.length →
      (∀ r ∈ A, r.length = w) → (∀ r ∈ B, r.length = w) →
      List.zipWith (List.zipWith (· - ·)) (List.zipWith (List.zipWith (· + ·)) B A) B = A := by
  intro A
  induction A with
  | nil => intro B _ _ _; cases B <;> simp
  | cons x xs ih =>
    intro B h hA hB
    cases B with
    | nil => simp at h
    | cons y ys =>
      simp only [List.zipWith_cons_cons, List.cons.injEq]
      refine ⟨zipWith_add_sub_row x y ?_, ih ys (by simpa using h) ?_ ?_⟩
      · rw [hA x (by simp), hB y (by simp)]
      · intro r hr; exact hA r (by simp [hr])
      · intro r hr; exact hB r (by simp [hr])

/-- The method `equal` of a matrix with itself, under a positive epsilon. -/
theorem Matrix.equal_self (m : Matrix) (w : Nat) (eps : DOUBLE) (heps : 0 < eps)
    (hw : m.width = .ok w) (hu : ∀ r ∈ m.elements, r.length = w) :
    m.equal m eps = .ok true := by
  obtain ⟨r, hr, hiff⟩ := Matrix.equal_spec m m eps w hw hw rfl hu hu
  have : r = true := hiff.mpr (by
    intro k _ l _
    rw [equal_eq_true]
    simpa using heps)
  rw [hr, this]

/-- C18: for `a` and `b` of one width and height, all rows of that width, `(a + b) - b` is
returned, has the height and the width of `a` and, cell by cell, the values of `a`; under
every positive epsilon it is equal to `a`. -/
theorem Matrix.add_then_sub (a b : Matrix) (w : Nat)
    (haw : a.width = .ok w) (hbw : b.width = .ok w) (hh : a.height = b.height)
    (hau : ∀ r ∈ a.elements, r.length = w) (hbu : ∀ r ∈ b.elements, r.length = w) :
    ∃ s d, Matrix.operator_plus a b = .ok s ∧ Matrix.operator_minus s b = .ok d ∧
      d.height = a.height ∧ d.width = a.width ∧
      (∀ i j, d.cell i j = a.cell i j) ∧
      ∀ eps : DOUBLE, 0 < eps → d.equal a eps = .ok true := by
  have hplus := Matrix.operator_plus_eq a b w haw hbw hh.symm hau hbu
  obtain ⟨hzh, hzr, _⟩ := Matrix.zipWith_spec (· + ·) b a w hbu hau hh.symm
  have hpos := Matrix.height_pos_of_width a w haw
  have hsw := Matrix.width_of_rows
    ⟨List.zipWith (List.zipWith (· + ·)) b.elements a.elements⟩ w (by rw [hzh]; omega) hzr
  have hminus := Matrix.operator_minus_eq
    ⟨List.zipWith (List.zipWith (· + ·)) b.elements a.elements⟩ b w hsw hbw (by rw [hzh]) hzr hbu
  have hback : (⟨List.zipWith (List.zipWith (· - ·))
      (List.zipWith (List.zipWith (· + ·)) b.elements a.elements) b.elements⟩ : Matrix) = a := by
    have := zipWith_add_sub_rows w a.elements b.elements hh hau hbu
    rw [this]
  rw [hback] at hminus
  exact ⟨_, a, hplus, hminus, rfl, rfl, fun _ _ => rfl,
    fun eps heps => Matrix.equal_self a w eps heps haw hau⟩

/-- C18 at the matrices `{{1,2},{3,4}}` and `{{10,20},{30,40}}`. -/
theorem Matrix.add_then_sub_witness :
    ∃ s d, Matrix.operator_plus ⟨[[1, 2], [3, 4]]⟩ ⟨[[10, 20], [30, 40]]⟩ = .ok s ∧
      Matrix.operator_minus s ⟨[[10, 20], [30, 40]]⟩ = .ok d ∧
      d.height = 2 ∧ d.width = .ok 2 ∧
      (∀ i j, d.cell i j = Matrix.cell ⟨[[1, 2], [3, 4]]⟩ i j) ∧
      ∀ eps : DOUBLE, 0 < eps → d.equal ⟨[[1, 2], [3, 4]]⟩ eps = .ok true :=
  Matrix.add_then_sub ⟨[[1, 2], [3, 4]]⟩ ⟨[[10, 20], [30, 40]]⟩ 2 (by decide) (by decide)
    (by decide) (by simp) (by simp)

/-- The helper `TMath::equal` does not depend on the order of the two values. -/
theorem equal_comm (x y eps : DOUBLE) : equal x y eps = equal y x eps := by
  unfold equal
  rw [abs_sub_comm]

/-- C19: `Matrix::equal` is symmetric on matrices of one shape, and it is not transitive:
with epsilon `3/2` the matrices `{{0}}` and `{{1}}` are equal, `{{1}}` and `{{2}}` are equal,
and `{{0}}` and `{{2}}` are not. -/
theorem Matrix.equal_symm_not_trans :
    (∀ (a b : Matrix) (w : Nat) (eps : DOUBLE), a.width = .ok w → b.width = .ok w →
      a.height = b.height → (∀ r ∈ a.elements, r.length = w) →
      (∀ r ∈ b.elements, r.length = w) → a.equal b eps = b.equal a eps) ∧
    ∃ (a b c : Matrix) (eps : DOUBLE), 0 < eps ∧
      a.width = .ok 1 ∧ b.width = .ok 1 ∧ c.width = .ok 1 ∧
      a.height = 1 ∧ b.height = 1 ∧ c.height = 1 ∧
      a.equal b eps = .ok true ∧ b.equal c eps = .ok true ∧ a.equal c eps = .ok false := by
  constructor
  · intro a b w eps haw hbw hh hau hbu
    obtain ⟨r1, hr1, hiff1⟩ := Matrix.equal_spec a b eps w haw hbw hh.symm hau hbu
    obtain ⟨r2, hr2, hiff2⟩ := Matrix.equal_spec b a eps w hbw haw hh hbu hau
    have hr : r1 = r2 := by
      have : r1 = true ↔ r2 = true := by
        rw [hiff1, hiff2, hh]
        constructor
        · intro h k hk l hl; rw [equal_comm]; exact h k hk l hl
        · intro h k hk l hl; rw [equal_comm]; exact h k hk l hl
      cases r1 <;> cases r2 <;> simp_all
    rw [hr1, hr2, hr]
  · refine ⟨⟨[[0]]⟩, ⟨[[1]]⟩, ⟨[[2]]⟩, 3 / 2, by norm_num, by decide, by decide, by decide,
      rfl, rfl, rfl, ?_, ?_, ?_⟩
    · simp [Matrix.equal, Matrix.validate, Matrix.width, Matrix.height, vecGet,
        Matrix.equalRows, Matrix.equalCols, Matrix.cell, TMath.equal]
      norm_num [abs_lt]
    · simp [Matrix.equal, Matrix.validate, Matrix.width, Matrix.height, vecGet,
        Matrix.equalRows, Matrix.equalCols, Matrix.cell, TMath.equal]
      norm_num [abs_lt]
    · simp [Matrix.equal, Matrix.validate, Matrix.width, Matrix.height, vecGet,
        Matrix.equalRows, Matrix.equalCols, Matrix.cell, TMath.equal]
      norm_num

/-- C19 at the matrices `{{1,2}}` and `{{1,3}}`: `equal` gives the same value in both
orders. -/
theorem Matrix.equal_symm_not_trans_witness :
    Matrix.equal ⟨[[1, 2]]⟩ ⟨[[1, 3]]⟩ (1 / 2) = Matrix.equal ⟨[[1, 3]]⟩ ⟨[[1, 2]]⟩ (1 / 2) :=
  Matrix.equal_symm_not_trans.1 ⟨[[1, 2]]⟩ ⟨[[1, 3]]⟩ 2 (1 / 2) (by decide) (by decide)
    (by decide) (by simp) (by simp)

end TMath
